import Mathlib

/-!
Shallow embedding of the cricket match engine of the `jiminy` repository
(`src/game.rs`, `src/team.rs`, `src/form.rs`), together with theorems
settling the specification claims about it.

Conventions of the embedding:
* Rust machine integers (`u8`, `u16`, `usize`) are modelled as `Nat`;
  none of the claims under study concerns integer wrap-around, and the
  in-range behaviour of the source is what is embedded.
* Rust panics (`expect`, `unwrap`, `assert_eq!`, `unreachable!()`, and
  out-of-bounds indexing) are modelled by the `none` result of
  `Option`-valued functions: `none` means the source aborts.
* `Vec` becomes `List`, `&Player` / `PlayerId` become `Nat`.
-/

namespace Jiminy

/-- Player identities (`PlayerId = usize` in `player.rs`). -/
abbrev PlayerId := Nat

/-! ## `form.rs` -/

/-- `conditions.rs` `BallType` (only the variants used by the formats). -/
inductive BallType
  | redLeather
  | whiteLeather
deriving DecidableEq, Repr

/-- `form.rs` `Form`: the format of a match. -/
structure Form where
  ball_type : BallType
  /-- the number of turns each side has to bat -/
  innings : Nat
  /-- the number of overs in an innings, if limited -/
  overs_per_innings : Option Nat
  balls_per_over : Nat
  batsmen_per_side : Nat
deriving DecidableEq, Repr

/-- `impl Default for Form`. -/
def Form.default : Form :=
  { ball_type := .redLeather
    innings := 2
    overs_per_innings := none
    balls_per_over := 6
    batsmen_per_side := 11 }

/-- `Form::test()`, which is `Form::default()`. -/
def Form.testFmt : Form := Form.default

/-- `Form::odi()`. -/
def Form.odi : Form :=
  { Form.default with innings := 1, overs_per_innings := some 50, ball_type := .whiteLeather }

/-- `Form::t20()`. -/
def Form.t20 : Form :=
  { Form.default with innings := 1, overs_per_innings := some 20, ball_type := .whiteLeather }

/-! ## `team.rs` -/

/-- `team.rs` `Team`: id, name and the players (id/name pairs). -/
structure Team where
  id : Nat
  name : String
  players : List (PlayerId × String)
deriving DecidableEq, Repr

/-- `team.rs` `BattingOrder`, reduced to the sequence of ids still to bat.
The source stores reversed indices and pops them, which yields the players
in roster order; the embedding keeps the not-yet-drawn suffix directly. -/
abbrev BattingOrder := List PlayerId

/-- `Team::batting_order`. -/
def Team.batting_order (t : Team) : BattingOrder := t.players.map Prod.fst

/-- `team.rs` `Bowlers`: the rotation list and the previous bowler. -/
structure Bowlers where
  bowlers : List PlayerId
  /-- the previous bowler so that we don't repeat -/
  last : PlayerId
deriving DecidableEq, Repr

/-- `Team::bowlers`: `players[5..11]` reversed; `last` is `bowlers[1]`.
The slice (and the index `[1]`) panic when the roster is too small, which
the embedding reports as `none`. -/
def Team.bowlersOf (t : Team) : Option Bowlers :=
  if t.players.length < 11 then none
  else
    match (((t.players.drop 5).take 6).map Prod.fst).reverse with
    | b0 :: b1 :: rest => some { bowlers := b0 :: b1 :: rest, last := b1 }
    | _ => none

/-- `impl Iterator for Bowlers`: return the first listed bowler different
from `last` (the `unwrap` panic on failure is `none`), and remember it. -/
def Bowlers.next (s : Bowlers) : Option (PlayerId × Bowlers) :=
  match s.bowlers.find? (fun b => s.last ≠ b) with
  | none => none
  | some b => some (b, { s with last := b })

/-! ## `game.rs` delivery outcomes -/

/-- `game.rs` `Dismissal`. -/
inductive Dismissal
  | bowled (bowler : String)
  | caught (fielder bowler : String)
  | lbw (bowler : String)
  | runOutStriker (fielder : String)
  | runOutNonStriker (fielder : String)
  | stumped (keeper : String)
deriving DecidableEq, Repr

/-- `matches!(wicket, Dismissal::RunOutNonStriker(_))`. -/
def Dismissal.isRunOutNonStriker : Dismissal → Bool
  | .runOutNonStriker _ => true
  | _ => false

/-- `game.rs` `Runs`. -/
inductive Runs
  | running (n : Nat)
  | four
  | six
deriving DecidableEq, Repr

/-- `Runs::runs`. -/
def Runs.runs : Runs → Nat
  | .running n => n
  | .four => 4
  | .six => 6

/-- `game.rs` `Extra`. -/
inductive Extra
  | noBall
  | wide
  | bye (r : Runs)
  | legBye (r : Runs)
  | penalty (n : Nat)
deriving DecidableEq, Repr

/-- `Extra::runs`. -/
def Extra.runs : Extra → Nat
  | .noBall => 1
  | .wide => 1
  | .bye r => r.runs
  | .legBye r => r.runs
  | .penalty n => n

/-- `Extra` is a no-ball or a wide. -/
def Extra.isIllegal : Extra → Bool
  | .noBall => true
  | .wide => true
  | _ => false

/-- `game.rs` `DeliveryOutcome`. -/
structure DeliveryOutcome where
  wicket : Option Dismissal
  runs : Runs
  extras : List Extra
deriving DecidableEq, Repr

/-- `impl Default for DeliveryOutcome`. -/
def DeliveryOutcome.default : DeliveryOutcome :=
  { wicket := none, runs := .running 0, extras := [] }

/-- `DeliveryOutcome::legal`: no no-ball or wide extra present. -/
def DeliveryOutcome.legal (b : DeliveryOutcome) : Bool :=
  !(b.extras.any Extra.isIllegal)

/-! ## `game.rs` batting stats -/

/-- `game.rs` `BatterInningsStats`. -/
structure BatterInningsStats where
  runs : Nat
  balls : Nat
  out : Option Dismissal
  fours : Nat
  sixes : Nat
deriving DecidableEq, Repr

/-- `impl Default for BatterInningsStats`. -/
def BatterInningsStats.empty : BatterInningsStats :=
  { runs := 0, balls := 0, out := none, fours := 0, sixes := 0 }

/-- `game.rs` `TeamBattingInningsStats`. -/
structure TeamBattingInningsStats where
  batting_order : BattingOrder
  batters : List (PlayerId × BatterInningsStats)
  extras : Nat
  batter_a : Nat
  batter_b : Nat
  striker_a : Bool
deriving DecidableEq, Repr

namespace TeamBattingInningsStats

/-- `TeamBattingInningsStats::new`: draw the first two batters (the
`expect` panics when the order is too short are `none`). -/
def new (team : Team) : Option TeamBattingInningsStats :=
  match team.batting_order with
  | p1 :: p2 :: rest =>
      some { batting_order := rest
             batters := [(p1, BatterInningsStats.empty), (p2, BatterInningsStats.empty)]
             extras := 0
             batter_a := 0
             batter_b := 1
             striker_a := true }
  | _ => none

/-- `TeamBattingInningsStats::all_out`. -/
def all_out (s : TeamBattingInningsStats) : Bool :=
  decide (s.batters.length ≤ s.batter_a) || decide (s.batters.length ≤ s.batter_b)

/-- `TeamBattingInningsStats::team_runs`. -/
def team_runs (s : TeamBattingInningsStats) : Nat :=
  (s.batters.map (fun p => p.2.runs)).sum + s.extras

/-- `TeamBattingInningsStats::wickets`. -/
def wickets (s : TeamBattingInningsStats) : Nat :=
  (s.batters.filter (fun p => p.2.out.isSome)).length

/-- `TeamBattingInningsStats::switch_striker`. -/
def switch_striker (s : TeamBattingInningsStats) : TeamBattingInningsStats :=
  { s with striker_a := !s.striker_a }

/-- The index of the current striker in `batters`. -/
def strikerIdx (s : TeamBattingInningsStats) : Nat :=
  if s.striker_a then s.batter_a else s.batter_b

/-- The index of the current non-striker in `batters`. -/
def nonStrikerIdx (s : TeamBattingInningsStats) : Nat :=
  if s.striker_a then s.batter_b else s.batter_a

end TeamBattingInningsStats

/-- Whether an odd running count toggles the strike switch
(the `Runs::Running(x) if x % 2 == 1` toggle of the source). -/
def runningSwitch : Runs → Bool
  | .running x => x % 2 == 1
  | _ => false

/-- Apply `ball.runs` to the striker stats (the `match ball.runs` block). -/
def applyRuns (st : BatterInningsStats) : Runs → BatterInningsStats
  | .running x => { st with runs := st.runs + x }
  | .four => { st with runs := st.runs + 4, fours := st.fours + 1 }
  | .six => { st with runs := st.runs + 6, sixes := st.sixes + 1 }

/-- Total of `Extra::runs` over the extras of a delivery. -/
def extrasTotal (l : List Extra) : Nat := (l.map Extra.runs).sum

/-- The bye/leg-bye strike-switch loop of
`TeamBattingInningsStats::update`: byes and leg byes carrying `Running`
sub-runs toggle the switch flag when odd; a bye or leg bye carrying a
boundary (`Four`/`Six`) reaches the `unreachable!()` arm, modelled `none`. -/
def byeSwitch : List Extra → Option Bool
  | [] => some false
  | .bye (.running b) :: rest =>
      (byeSwitch rest).map (fun sw => xor (b % 2 == 1) sw)
  | .legBye (.running b) :: rest =>
      (byeSwitch rest).map (fun sw => xor (b % 2 == 1) sw)
  | .bye _ :: _ => none
  | .legBye _ :: _ => none
  | _ :: rest => byeSwitch rest

/-- The dismissal block of `TeamBattingInningsStats::update`: mark the
named batter out (non-striker only for a non-striker run-out).  An
out-of-range crease index is a Rust indexing panic, hence `none`. -/
def applyWicket (batters : List (PlayerId × BatterInningsStats)) (sIdx nIdx : Nat) :
    Option Dismissal → Option (List (PlayerId × BatterInningsStats))
  | none => some batters
  | some w =>
      let idx := if w.isRunOutNonStriker then nIdx else sIdx
      match batters[idx]? with
      | none => none
      | some e => some (batters.set idx (e.1, { e.2 with out := some w }))

/-- One `if self.batters[idx].1.out.is_some()` replacement block of
`TeamBattingInningsStats::update`: when the batter in the slot is out, the
slot index becomes `batters.len()` and, if the batting order can still
supply a batter, a fresh record is pushed (so the slot points at it).
Returns the new batters list, the remaining order it and the slot index. -/
def replaceIfOut (batters : List (PlayerId × BatterInningsStats)) (order : BattingOrder)
    (idx : Nat) : Option (List (PlayerId × BatterInningsStats) × BattingOrder × Nat) :=
  match batters[idx]? with
  | none => none
  | some e =>
      if e.2.out.isSome then
        match order with
        | [] => some (batters, [], batters.length)
        | p :: rest => some (batters ++ [(p, BatterInningsStats.empty)], rest, batters.length)
      else some (batters, order, idx)

/-- The legal-ball increment of a batter record
(`if ball.legal() { striker_stats.balls += 1 }`). -/
def bumpBalls (st : BatterInningsStats) (legal : Bool) : BatterInningsStats :=
  if legal then { st with balls := st.balls + 1 } else st

/-- `TeamBattingInningsStats::update`. -/
def TeamBattingInningsStats.update (s : TeamBattingInningsStats) (ball : DeliveryOutcome) :
    Option TeamBattingInningsStats :=
  match s.batters[s.strikerIdx]? with
  | none => none
  | some entry =>
      let st1 := bumpBalls entry.2 ball.legal
      let switch1 := runningSwitch ball.runs
      let st2 := applyRuns st1 ball.runs
      let extras2 := s.extras + extrasTotal ball.extras
      match byeSwitch ball.extras with
      | none => none
      | some switch2 =>
          let batters1 := s.batters.set s.strikerIdx (entry.1, st2)
          match applyWicket batters1 s.strikerIdx s.nonStrikerIdx ball.wicket with
          | none => none
          | some batters2 =>
              match replaceIfOut batters2 s.batting_order s.batter_a with
              | none => none
              | some (batters3, order3, a3) =>
                  match replaceIfOut batters3 order3 s.batter_b with
                  | none => none
                  | some (batters4, order4, b4) =>
                      some { s with
                        batters := batters4
                        batting_order := order4
                        batter_a := a3
                        batter_b := b4
                        extras := extras2
                        striker_a := if xor switch1 switch2 then !s.striker_a else s.striker_a }

/-! ## `game.rs` bowling stats -/

/-- `game.rs` `BowlerInningsStats`. -/
structure BowlerInningsStats where
  balls : Nat
  maiden_overs : Nat
  runs : Nat
  wickets : Nat
  wides : Nat
  no_balls : Nat
deriving DecidableEq, Repr

/-- `impl Default for BowlerInningsStats`. -/
def BowlerInningsStats.empty : BowlerInningsStats :=
  { balls := 0, maiden_overs := 0, runs := 0, wickets := 0, wides := 0, no_balls := 0 }

/-- `game.rs` `TeamBowlingInningsStats`. -/
structure TeamBowlingInningsStats where
  bowlers : Bowlers
  bowler_stats : List (PlayerId × BowlerInningsStats)
  current_bowler_index : Nat
  current_over_maiden : Bool
deriving DecidableEq, Repr

/-- `Vec::position` over the bowler stats list. -/
def posIdx (b : PlayerId) : List (PlayerId × BowlerInningsStats) → Option Nat
  | [] => none
  | p :: rest => if p.1 = b then some 0 else (posIdx b rest).map (· + 1)

namespace TeamBowlingInningsStats

/-- `TeamBowlingInningsStats::new` (the `expect` on the first draw is `none`). -/
def new (team : Team) : Option TeamBowlingInningsStats :=
  match team.bowlersOf with
  | none => none
  | some bw =>
      match bw.next with
      | none => none
      | some (b0, bw1) =>
          some { bowlers := bw1
                 bowler_stats := [(b0, BowlerInningsStats.empty)]
                 current_bowler_index := 0
                 current_over_maiden := true }

/-- The runs charged to the bowler by `TeamBowlingInningsStats::update`:
off-bat runs plus the `Extra::runs` of each no-ball and wide. -/
def bowlerRuns (ball : DeliveryOutcome) : Nat :=
  ball.runs.runs +
    (ball.extras.filterMap (fun x => if x.isIllegal then some x.runs else none)).sum

/-- `TeamBowlingInningsStats::update`. -/
def update (t : TeamBowlingInningsStats) (ball : DeliveryOutcome) :
    Option TeamBowlingInningsStats :=
  match t.bowler_stats[t.current_bowler_index]? with
  | none => none
  | some e =>
      let bs := if ball.legal then { e.2 with balls := e.2.balls + 1 } else e.2
      let maiden := if 0 < bowlerRuns ball then false else t.current_over_maiden
      let bs := { bs with runs := bs.runs + bowlerRuns ball }
      let bs := { bs with wides := bs.wides + (ball.extras.filter (fun x => decide (x = Extra.wide))).length }
      let bs := { bs with no_balls := bs.no_balls + (ball.extras.filter (fun x => decide (x = Extra.noBall))).length }
      let bs := if ball.wicket.isSome then { bs with wickets := bs.wickets + 1 } else bs
      some { t with
        bowler_stats := t.bowler_stats.set t.current_bowler_index (e.1, bs)
        current_over_maiden := maiden }

/-- The bowler-rotation tail of `TeamBowlingInningsStats::new_over`: draw
the next bowler and point `current_bowler_index` at their row of
`stats1`, appending a fresh row when they have not bowled yet. -/
def pickNext (t : TeamBowlingInningsStats) (stats1 : List (PlayerId × BowlerInningsStats)) :
    Option TeamBowlingInningsStats :=
  match t.bowlers.next with
  | none => none
  | some (nb, bw) =>
      match posIdx nb stats1 with
      | some i =>
          some { t with
                  bowlers := bw
                  bowler_stats := stats1
                  current_bowler_index := i
                  current_over_maiden := true }
      | none =>
          some { t with
                  bowlers := bw
                  bowler_stats := stats1 ++ [(nb, BowlerInningsStats.empty)]
                  current_bowler_index := stats1.length
                  current_over_maiden := true }

/-- `TeamBowlingInningsStats::new_over`. -/
def new_over (t : TeamBowlingInningsStats) : Option TeamBowlingInningsStats :=
  if t.current_over_maiden then
    match t.bowler_stats[t.current_bowler_index]? with
    | none => none
    | some e =>
        t.pickNext (t.bowler_stats.set t.current_bowler_index
          (e.1, { e.2 with maiden_overs := e.2.maiden_overs + 1 }))
  else t.pickNext t.bowler_stats

/-- The identity of the bowler currently bowling, when the index is in
range. -/
def currentBowler? (t : TeamBowlingInningsStats) : Option PlayerId :=
  (t.bowler_stats[t.current_bowler_index]?).map Prod.fst

end TeamBowlingInningsStats

/-! ## `game.rs` innings stats and game state -/

/-- `game.rs` `InningsStats`. -/
structure InningsStats where
  batting_team : Team
  bowling_team : Team
  batting_stats : TeamBattingInningsStats
  bowling_stats : TeamBowlingInningsStats
  /-- the number of overs that have been completed -/
  overs : Nat
  /-- the number of legal balls delivered in the over -/
  balls : Nat
  balls_per_over : Nat
deriving DecidableEq, Repr

namespace InningsStats

/-- `InningsStats::new`. -/
def new (batting bowling : Team) (balls_per_over : Nat) : Option InningsStats :=
  match TeamBattingInningsStats.new batting with
  | none => none
  | some bat =>
      match TeamBowlingInningsStats.new bowling with
      | none => none
      | some bowl =>
          some { batting_team := batting, bowling_team := bowling,
                 batting_stats := bat, bowling_stats := bowl,
                 overs := 0, balls := 0, balls_per_over := balls_per_over }

/-- `InningsStats::all_out`. -/
def all_out (s : InningsStats) : Bool := s.batting_stats.all_out

/-- `InningsStats::runs`. -/
def runs (s : InningsStats) : Nat := s.batting_stats.team_runs

/-- `InningsStats::wickets`. -/
def wickets (s : InningsStats) : Nat := s.batting_stats.wickets

/-- `InningsStats::update`. -/
def update (s : InningsStats) (ball : DeliveryOutcome) : Option InningsStats :=
  match s.batting_stats.update ball with
  | none => none
  | some bat =>
      match s.bowling_stats.update ball with
      | none => none
      | some bowl =>
          let balls1 := if ball.legal then s.balls + 1 else s.balls
          if s.balls_per_over ≤ balls1 then
            match bowl.new_over with
            | none => none
            | some bowl2 =>
                some { s with
                        batting_stats := bat.switch_striker
                        bowling_stats := bowl2
                        balls := 0
                        overs := s.overs + 1 }
          else
            some { s with batting_stats := bat, bowling_stats := bowl, balls := balls1 }

/-- Iterated `InningsStats::update` over a list of deliveries. -/
def run (s : InningsStats) : List DeliveryOutcome → Option InningsStats
  | [] => some s
  | d :: ds =>
      match s.update d with
      | none => none
      | some s1 => s1.run ds

end InningsStats

/-- `game.rs` `GameState`. -/
structure GameState where
  form : Form
  team_a : Team
  team_b : Team
  /-- current innings in progress; `none` when the game is complete -/
  current : Option InningsStats
  previous : List InningsStats
deriving DecidableEq, Repr

namespace GameState

/-- `GameState::new`. -/
def new (rules : Form) (team_a team_b : Team) : Option GameState :=
  match InningsStats.new team_a team_b rules.balls_per_over with
  | none => none
  | some st =>
      some { form := rules, team_a := team_a, team_b := team_b,
             current := some st, previous := [] }

/-- `GameState::complete`. -/
def complete (g : GameState) : Bool := g.current.isNone

/-- `GameState::team_score` (teams compare by id, `impl PartialEq for Team`). -/
def teamScore (g : GameState) (t : Team) : Nat :=
  (g.previous.filterMap
      (fun st => if st.batting_team.id = t.id then some st.batting_stats.team_runs else none)).sum
  + (match g.current with
     | some st => if st.batting_team.id = t.id then st.batting_stats.team_runs else 0
     | none => 0)

/-- `GameState::new_innings` (the `expect` when the match is already
complete models the Rust panic `Must be a current innings`). -/
def new_innings (g : GameState) : Option GameState :=
  match g.current with
  | none => none
  | some last =>
      let prev := g.previous ++ [last]
      let g1 : GameState := { g with current := none, previous := prev }
      if 2 * g.form.innings ≤ prev.length then some g1
      else
        let batR := g1.teamScore last.batting_team
        let bowlR := g1.teamScore last.bowling_team
        if prev.length + 1 = 2 * g.form.innings ∧ batR < bowlR then some g1
        else
          let next :=
            if prev.length % 2 = 0 ∧ batR + 150 ≤ bowlR
            then (last.batting_team, last.bowling_team)
            else (last.bowling_team, last.batting_team)
          match InningsStats.new next.1 next.2 g.form.balls_per_over with
          | none => none
          | some st => some { g1 with current := some st }

/-- `GameState::declare`. -/
def declare (g : GameState) : Option GameState := g.new_innings

/-- `GameState::update` (the `expect` when there is no current innings
models the Rust panic `Match is over`; the failed
`assert_eq!(wickets + 1, batsmen_per_side)` is also `none`). -/
def update (g : GameState) (ball : DeliveryOutcome) : Option GameState :=
  match g.current with
  | none => none
  | some st =>
      match st.update ball with
      | none => none
      | some st2 =>
          if st2.all_out && decide (st2.wickets + 1 ≠ g.form.batsmen_per_side) then none
          else
            let g1 : GameState := { g with current := some st2 }
            let newInnings : Bool :=
              st2.all_out
              || (match g.form.overs_per_innings with
                  | some opi => decide (opi ≤ st2.overs)
                  | none => false)
              || (decide (g.previous.length + 1 = 2 * g.form.innings)
                  && decide (g1.teamScore st2.bowling_team < g1.teamScore st2.batting_team))
            if newInnings then g1.new_innings else some g1

/-- Iterated `GameState::update`. -/
def runBalls (g : GameState) : List DeliveryOutcome → Option GameState
  | [] => some g
  | d :: ds =>
      match g.update d with
      | none => none
      | some g1 => g1.runBalls ds

end GameState

end Jiminy

/-! ## Concrete fixtures used by witnesses and counterexamples -/

namespace Jiminy

/-- An eleven-player home team used in concrete runs. -/
def tA : Team := ⟨0, "A", (List.range 11).map (fun i => (i, "p"))⟩

/-- An eleven-player visiting team used in concrete runs. -/
def tB : Team := ⟨1, "B", (List.range 11).map (fun i => (100 + i, "p"))⟩

/-- A dot ball. -/
def dotBall : DeliveryOutcome := DeliveryOutcome.default

/-- A single run off the bat. -/
def oneRunBall : DeliveryOutcome := { dotBall with runs := .running 1 }

/-- A delivery conceding 150 conduct-penalty runs. -/
def penaltyBall : DeliveryOutcome := { dotBall with extras := [.penalty 150] }

/-- A delivery on which the striker is bowled. -/
def wicketBall : DeliveryOutcome := { dotBall with wicket := some (.bowled "x") }

/-- A delivery with a bye that reaches the boundary. -/
def byeFourBall : DeliveryOutcome := { dotBall with extras := [.bye .four] }

/-- A placeholder game state used only to strip `Option` in fixtures. -/
def dummyG : GameState := ⟨Form.default, tA, tB, none, []⟩

/-- A placeholder innings used only to strip `Option` in fixtures. -/
def dummyInn : InningsStats := ⟨tA, tB, ⟨[], [], 0, 0, 0, true⟩, ⟨⟨[], 0⟩, [], 0, true⟩, 0, 0, 6⟩

/-- A completed one-innings-per-side match: both sides declare at once. -/
def c2g : GameState :=
  (((GameState.new Form.odi tA tB).bind GameState.declare).bind GameState.declare).getD dummyG

end Jiminy

/-! ## Helper lemmas -/

namespace Jiminy

theorem posIdx_spec (b : PlayerId) (l : List (PlayerId × BowlerInningsStats)) (i : Nat)
    (h : posIdx b l = some i) : (l[i]?).map Prod.fst = some b := by
  induction l generalizing i with
  | nil => simp [posIdx] at h
  | cons p rest ih =>
      by_cases hp : p.1 = b
      · simp [posIdx, hp] at h
        subst h
        simp [hp]
      · simp [posIdx, hp] at h
        obtain ⟨j, hj, hij⟩ := h
        subst hij
        simpa using ih j hj

/-- The sub-runs carried by the bye and leg-bye extras of a delivery. -/
def byeSubTotal : List Extra → Nat
  | [] => 0
  | .bye r :: rest => r.runs + byeSubTotal rest
  | .legBye r :: rest => r.runs + byeSubTotal rest
  | _ :: rest => byeSubTotal rest

/-- Whether the total bye/leg-bye sub-run count of a delivery is odd. -/
def byeOddSpec (l : List Extra) : Bool := byeSubTotal l % 2 == 1

theorem xor_parity (b S : Nat) :
    xor (b % 2 == 1) (S % 2 == 1) = ((b + S) % 2 == 1) := by
  rcases Nat.mod_two_eq_zero_or_one b with hb | hb <;>
    rcases Nat.mod_two_eq_zero_or_one S with hS | hS <;>
      simp [Nat.add_mod, hb, hS]

theorem byeSwitch_eq (l : List Extra) (sw : Bool) (h : byeSwitch l = some sw) :
    sw = byeOddSpec l := by
  induction l generalizing sw with
  | nil => simp [byeSwitch] at h; simp [h, byeOddSpec, byeSubTotal]
  | cons x rest ih =>
      cases x with
      | bye r =>
          cases r with
          | running b =>
              simp only [byeSwitch, Option.map_eq_some'] at h
              obtain ⟨sw', hsw', hx⟩ := h
              subst hx
              rw [ih sw' hsw']
              simp only [byeOddSpec, byeSubTotal, Runs.runs]
              exact xor_parity b (byeSubTotal rest)
          | four => simp [byeSwitch] at h
          | six => simp [byeSwitch] at h
      | legBye r =>
          cases r with
          | running b =>
              simp only [byeSwitch, Option.map_eq_some'] at h
              obtain ⟨sw', hsw', hx⟩ := h
              subst hx
              rw [ih sw' hsw']
              simp only [byeOddSpec, byeSubTotal, Runs.runs]
              exact xor_parity b (byeSubTotal rest)
          | four => simp [byeSwitch] at h
          | six => simp [byeSwitch] at h
      | noBall => simpa [byeSwitch, byeOddSpec, byeSubTotal] using ih sw (by simpa [byeSwitch] using h)
      | wide => simpa [byeSwitch, byeOddSpec, byeSubTotal] using ih sw (by simpa [byeSwitch] using h)
      | penalty n => simpa [byeSwitch, byeOddSpec, byeSubTotal] using ih sw (by simpa [byeSwitch] using h)

/-- Whether some bye or leg-bye extra carries a boundary (`Four`/`Six`). -/
def hasBoundaryBye : List Extra → Bool
  | [] => false
  | .bye .four :: _ => true
  | .bye .six :: _ => true
  | .legBye .four :: _ => true
  | .legBye .six :: _ => true
  | _ :: rest => hasBoundaryBye rest

theorem byeSwitch_none_of_boundary (l : List Extra) (h : hasBoundaryBye l = true) :
    byeSwitch l = none := by
  induction l with
  | nil => simp [hasBoundaryBye] at h
  | cons x rest ih =>
      cases x with
      | bye r =>
          cases r with
          | running b =>
              rw [byeSwitch, ih (by simpa [hasBoundaryBye] using h)]
              rfl
          | four => rfl
          | six => rfl
      | legBye r =>
          cases r with
          | running b =>
              rw [byeSwitch, ih (by simpa [hasBoundaryBye] using h)]
              rfl
          | four => rfl
          | six => rfl
      | noBall => exact ih (by simpa [hasBoundaryBye] using h)
      | wide => exact ih (by simpa [hasBoundaryBye] using h)
      | penalty n => exact ih (by simpa [hasBoundaryBye] using h)

end Jiminy

namespace Jiminy

theorem getElem?_some_lt {α : Type} (l : List α) (i : Nat) (a : α) (h : l[i]? = some a) :
    i < l.length := by
  rw [List.getElem?_eq_some] at h
  exact h.1

/-- The amount the claim charges to the bowler: off-bat runs plus one run
per no-ball extra and one per wide extra. -/
def chargeableSpec (ball : DeliveryOutcome) : Nat :=
  ball.runs.runs + ball.extras.countP (fun x => decide (x = Extra.noBall))
    + ball.extras.countP (fun x => decide (x = Extra.wide))

theorem bowlerRuns_eq_chargeable (ball : DeliveryOutcome) :
    TeamBowlingInningsStats.bowlerRuns ball = chargeableSpec ball := by
  have key : ∀ l : List Extra,
      (l.filterMap (fun x => if x.isIllegal then some x.runs else none)).sum
        = l.countP (fun x => decide (x = Extra.noBall)) + l.countP (fun x => decide (x = Extra.wide)) := by
    intro l
    induction l with
    | nil => simp
    | cons x rest ih =>
        have step : (List.filterMap (fun x => if x.isIllegal then some x.runs else none) (x :: rest)).sum
            = (if x.isIllegal then x.runs else 0)
              + (List.filterMap (fun x => if x.isIllegal then some x.runs else none) rest).sum := by
          rw [List.filterMap_cons]
          by_cases hx : x.isIllegal <;> simp [hx]
        rw [step, ih, List.countP_cons, List.countP_cons]
        cases x <;> simp [Extra.isIllegal, Extra.runs] <;> omega
  unfold TeamBowlingInningsStats.bowlerRuns chargeableSpec
  rw [key]
  omega

/-- C8: on every applied delivery the current bowler's runs-conceded grows
by exactly the off-bat runs plus one run per no-ball and per wide extra
(bye, leg-bye and penalty extras are never charged), and the current
over's maiden flag after the delivery is the old flag conjoined with the
chargeable amount being zero (so it is cleared exactly when that amount
is positive). -/
theorem bowler_conceded_chargeable_and_maiden (t t' : TeamBowlingInningsStats)
    (ball : DeliveryOutcome) (h : t.update ball = some t') :
    ((t'.bowler_stats[t.current_bowler_index]?).map (fun e => e.2.runs))
      = ((t.bowler_stats[t.current_bowler_index]?).map (fun e => e.2.runs + chargeableSpec ball))
    ∧ t'.current_over_maiden = (t.current_over_maiden && (chargeableSpec ball == 0)) := by
  unfold TeamBowlingInningsStats.update at h
  cases he : t.bowler_stats[t.current_bowler_index]? with
  | none => rw [he] at h; exact absurd h (by simp)
  | some e =>
      rw [he] at h
      simp only [Option.some.injEq] at h
      subst h
      have hlt := getElem?_some_lt _ _ _ he
      constructor
      · simp only [List.getElem?_set_self hlt, he, Option.map_some']
        rw [bowlerRuns_eq_chargeable]
        cases hw : ball.wicket.isSome <;> cases hl : ball.legal <;> simp [hw, hl]
      · rw [bowlerRuns_eq_chargeable]
        by_cases hpos : 0 < chargeableSpec ball
        · simp [hpos, Nat.pos_iff_ne_zero.mp hpos]
        · have hz : chargeableSpec ball = 0 := by omega
          simp [hz]

/-- C8 witness: a delivery with one run off the bat, a no-ball, a wide and
a leg-bye of one charges 1 + 1 + 1 = 3 runs to the opening bowler (the
leg-bye is not charged) and clears the maiden flag. -/
theorem bowler_conceded_chargeable_and_maiden_witness :
    (TeamBowlingInningsStats.new tB).map
        (fun t => t.update { dotBall with runs := .running 1, extras := [.noBall, .wide, .legBye (.running 1)] })
      = some (((TeamBowlingInningsStats.new tB).getD ⟨⟨[], 0⟩, [], 0, true⟩).update
          { dotBall with runs := .running 1, extras := [.noBall, .wide, .legBye (.running 1)] })
    ∧ (((((TeamBowlingInningsStats.new tB).getD ⟨⟨[], 0⟩, [], 0, true⟩).update
          { dotBall with runs := .running 1, extras := [.noBall, .wide, .legBye (.running 1)] }).getD
            ⟨⟨[], 0⟩, [], 0, true⟩).bowler_stats[0]?).map (fun e => e.2.runs) = some 3 := by
  constructor
  · rfl
  · have h := bowler_conceded_chargeable_and_maiden
      ((TeamBowlingInningsStats.new tB).getD ⟨⟨[], 0⟩, [], 0, true⟩)
      ((((TeamBowlingInningsStats.new tB).getD ⟨⟨[], 0⟩, [], 0, true⟩).update
          { dotBall with runs := .running 1, extras := [.noBall, .wide, .legBye (.running 1)] }).getD
            ⟨⟨[], 0⟩, [], 0, true⟩)
      { dotBall with runs := .running 1, extras := [.noBall, .wide, .legBye (.running 1)] }
      (by rfl)
    rw [show ((((TeamBowlingInningsStats.new tB).getD ⟨⟨[], 0⟩, [], 0, true⟩)).current_bowler_index) = 0 from rfl] at h
    rw [h.1]
    rfl

end Jiminy

namespace Jiminy

/-- C7: on every delivery the batting engine accepts, the striker and
non-striker roles swap (before any end-of-over swap) exactly when the
parity of the running-run count XOR the parity of the total bye/leg-bye
sub-run count is odd; even running runs and boundary fours/sixes
contribute no toggle, and an odd running count with an odd bye count nets
to no swap. -/
theorem strike_switch_parity (s s' : TeamBattingInningsStats) (ball : DeliveryOutcome)
    (h : s.update ball = some s') :
    s'.striker_a
      = (if xor (runningSwitch ball.runs) (byeOddSpec ball.extras)
         then !s.striker_a else s.striker_a) := by
  unfold TeamBattingInningsStats.update at h
  cases he : s.batters[s.strikerIdx]? with
  | none => rw [he] at h; exact absurd h (by simp)
  | some entry =>
      rw [he] at h
      cases hbs : byeSwitch ball.extras with
      | none => rw [hbs] at h; exact absurd h (by simp)
      | some sw2 =>
          rw [hbs] at h
          simp only at h
          cases haw : applyWicket (s.batters.set s.strikerIdx
              (entry.1, applyRuns (bumpBalls entry.2 ball.legal) ball.runs))
              s.strikerIdx s.nonStrikerIdx ball.wicket with
          | none => rw [haw] at h; exact absurd h (by simp)
          | some batters2 =>
              rw [haw] at h
              simp only at h
              cases hra : replaceIfOut batters2 s.batting_order s.batter_a with
              | none => rw [hra] at h; exact absurd h (by simp)
              | some resA =>
                  obtain ⟨batters3, order3, a3⟩ := resA
                  rw [hra] at h
                  simp only at h
                  cases hrb : replaceIfOut batters3 order3 s.batter_b with
                  | none => rw [hrb] at h; exact absurd h (by simp)
                  | some resB =>
                      obtain ⟨batters4, order4, b4⟩ := resB
                      rw [hrb] at h
                      simp only [Option.some.injEq] at h
                      subst h
                      rw [byeSwitch_eq ball.extras sw2 hbs]

end Jiminy

namespace Jiminy

/-- A placeholder batting-stats record used only to strip `Option`. -/
def dummyTBat : TeamBattingInningsStats := ⟨[], [], 0, 0, 0, true⟩

/-- The batting half of a fresh innings of `tA`. -/
def freshBatA : TeamBattingInningsStats :=
  (TeamBattingInningsStats.new tA).getD dummyTBat

/-- One run off the bat together with a bye of one. -/
def oneRunOneByeBall : DeliveryOutcome :=
  { dotBall with runs := .running 1, extras := [.bye (.running 1)] }

/-- C7 witness: one run plus a bye of one nets to no strike swap on a
fresh innings (both toggles fire and cancel). -/
theorem strike_switch_parity_witness :
    freshBatA.update oneRunOneByeBall = some ((freshBatA.update oneRunOneByeBall).getD dummyTBat)
    ∧ ((freshBatA.update oneRunOneByeBall).getD dummyTBat).striker_a
        = (if xor (runningSwitch oneRunOneByeBall.runs) (byeOddSpec oneRunOneByeBall.extras)
           then !freshBatA.striker_a else freshBatA.striker_a)
    ∧ ((freshBatA.update oneRunOneByeBall).getD dummyTBat).striker_a = freshBatA.striker_a :=
  ⟨by rfl,
   strike_switch_parity freshBatA ((freshBatA.update oneRunOneByeBall).getD dummyTBat)
     oneRunOneByeBall (by rfl),
   by rfl⟩

/-- C10: the batting-stats update is not total: whenever the crease is
occupied (the striker slot resolves) and the delivery carries a bye or
leg-bye whose inner runs are the boundary `Four` or `Six`, the
strike-switch computation hits the `unreachable!()` arm and the update
panics (`none`) instead of updating the stats. -/
theorem boundary_bye_unreachable (s : TeamBattingInningsStats) (ball : DeliveryOutcome)
    (e : PlayerId × BatterInningsStats) (he : s.batters[s.strikerIdx]? = some e)
    (hb : hasBoundaryBye ball.extras = true) :
    s.update ball = none := by
  unfold TeamBattingInningsStats.update
  rw [he, byeSwitch_none_of_boundary ball.extras hb]

/-- C10 witness: a bye scored as a boundary four panics the update on a
fresh innings. -/
theorem boundary_bye_unreachable_witness :
    freshBatA.batters[freshBatA.strikerIdx]? = some (0, BatterInningsStats.empty)
    ∧ hasBoundaryBye byeFourBall.extras = true
    ∧ freshBatA.update byeFourBall = none :=
  ⟨by rfl, by rfl,
   boundary_bye_unreachable freshBatA byeFourBall (0, BatterInningsStats.empty) (by rfl) (by rfl)⟩

theorem next_spec (s : Bowlers) (b : PlayerId) (s' : Bowlers) (h : s.next = some (b, s')) :
    s.last ≠ b ∧ s'.last = b ∧ s'.bowlers = s.bowlers := by
  unfold Bowlers.next at h
  cases hf : s.bowlers.find? (fun b => s.last ≠ b) with
  | none => rw [hf] at h; exact absurd h (by simp)
  | some b0 =>
      rw [hf] at h
      simp only [Option.some.injEq, Prod.mk.injEq] at h
      obtain ⟨hb, hs⟩ := h
      subst hb
      subst hs
      have hp := List.find?_some hf
      exact ⟨of_decide_eq_true hp, rfl, rfl⟩

theorem pickNext_keeps_rotation (t : TeamBowlingInningsStats)
    (stats1 : List (PlayerId × BowlerInningsStats)) (t' : TeamBowlingInningsStats)
    (hcb : t.currentBowler? = some t.bowlers.last) (hh : t.pickNext stats1 = some t') :
    t'.currentBowler? ≠ t.currentBowler? ∧ t'.currentBowler? = some t'.bowlers.last := by
  unfold TeamBowlingInningsStats.pickNext at hh
  cases hn : t.bowlers.next with
  | none => rw [hn] at hh; exact absurd hh (by simp)
  | some p =>
      obtain ⟨nb, bw⟩ := p
      rw [hn] at hh
      obtain ⟨hne, hlast, _⟩ := next_spec t.bowlers nb bw hn
      simp only at hh
      cases hp : posIdx nb stats1 with
      | some i =>
          rw [hp] at hh
          simp only [Option.some.injEq] at hh
          subst hh
          have hcur : TeamBowlingInningsStats.currentBowler?
              { t with bowlers := bw, bowler_stats := stats1, current_bowler_index := i, current_over_maiden := true }
                = some nb := by
            unfold TeamBowlingInningsStats.currentBowler?
            exact posIdx_spec nb stats1 i hp
          refine ⟨?_, by rw [hcur, hlast]⟩
          rw [hcur, hcb]
          intro hx
          exact hne (by injection hx with hx2; rw [hx2])
      | none =>
          rw [hp] at hh
          simp only [Option.some.injEq] at hh
          subst hh
          have hcur : TeamBowlingInningsStats.currentBowler?
              { t with bowlers := bw, bowler_stats := stats1 ++ [(nb, BowlerInningsStats.empty)], current_bowler_index := stats1.length, current_over_maiden := true }
                = some nb := by
            unfold TeamBowlingInningsStats.currentBowler?
            simp [List.getElem?_concat_length]
          refine ⟨?_, by rw [hcur, hlast]⟩
          rw [hcur, hcb]
          intro hx
          exact hne (by injection hx with hx2; rw [hx2])

/-- C9: two consecutive successful draws from the bowler rotation always
return different players, and a successful over change never keeps the
bowler who bowled the preceding over (given the invariant, established at
construction and preserved by every draw, that the rotation's `last`
field is the current bowler). -/
theorem bowler_rotation_no_repeat :
    (∀ (s : Bowlers) (b1 : PlayerId) (s1 : Bowlers) (b2 : PlayerId) (s2 : Bowlers),
        s.next = some (b1, s1) → s1.next = some (b2, s2) → b1 ≠ b2)
    ∧ (∀ (t t' : TeamBowlingInningsStats),
        t.currentBowler? = some t.bowlers.last → t.new_over = some t' →
          t'.currentBowler? ≠ t.currentBowler?
          ∧ t'.currentBowler? = some t'.bowlers.last) := by
  constructor
  · intro s b1 s1 b2 s2 h1 h2
    obtain ⟨hne1, hl1, hb1⟩ := next_spec s b1 s1 h1
    obtain ⟨hne2, hl2, hb2⟩ := next_spec s1 b2 s2 h2
    rw [hl1] at hne2
    exact hne2
  · intro t t' hcb h
    unfold TeamBowlingInningsStats.new_over at h
    obtain ⟨e, he, hfst⟩ := Option.map_eq_some'.mp hcb
    by_cases hm : t.current_over_maiden = true
    · rw [hm] at h
      simp only [if_true] at h
      rw [he] at h
      simp only at h
      exact pickNext_keeps_rotation t _ t' hcb h
    · rw [Bool.not_eq_true] at hm
      rw [hm] at h
      simp only [Bool.false_eq_true, if_false] at h
      exact pickNext_keeps_rotation t _ t' hcb h

/-- The opening state of the tiny two-bowler rotation example. -/
def c9T0 : TeamBowlingInningsStats := ⟨⟨[5, 6], 5⟩, [(5, BowlerInningsStats.empty)], 0, true⟩

/-- The state of the tiny rotation example after one over change. -/
def c9T1 : TeamBowlingInningsStats := c9T0.new_over.getD ⟨⟨[], 0⟩, [], 0, true⟩

/-- C9 witness: with rotation list `[5, 6]` and `last = 6`, two
consecutive draws return `5` then `6`, which differ; and an over change
from a state bowled by `5` hands the ball to a different bowler. -/
theorem bowler_rotation_no_repeat_witness :
    Bowlers.next ⟨[5, 6], 6⟩ = some (5, ⟨[5, 6], 5⟩)
    ∧ Bowlers.next ⟨[5, 6], 5⟩ = some (6, ⟨[5, 6], 6⟩)
    ∧ (5 : PlayerId) ≠ 6
    ∧ c9T0.new_over = some c9T1
    ∧ c9T1.currentBowler? ≠ c9T0.currentBowler? :=
  ⟨by rfl, by rfl,
   bowler_rotation_no_repeat.1 ⟨[5, 6], 6⟩ 5 ⟨[5, 6], 5⟩ 6 ⟨[5, 6], 6⟩ (by rfl) (by rfl),
   by rfl,
   (bowler_rotation_no_repeat.2 c9T0 c9T1 (by rfl) (by rfl)).1⟩

end Jiminy

namespace Jiminy

theorem update_complete_none (g : GameState) (ball : DeliveryOutcome) (h : g.current = none) :
    g.update ball = none := by
  unfold GameState.update
  rw [h]

theorem declare_complete_none (g : GameState) (h : g.current = none) :
    g.declare = none := by
  unfold GameState.declare GameState.new_innings
  rw [h]

/-- C2: on a completed match (no current innings) both `update` and
`declare` abort through the `expect` panics of `GameState::update` and
`GameState::new_innings` (modelled `none`) instead of returning the typed
`Error::MatchComplete` failure that `error.rs` defines and that the
spec and the crate's own test (`state.update(&ball)?`) require.  The
concrete failing input is the `Form::odi()` match completed by two
declarations. -/
theorem completed_match_calls_panic :
    c2g.current = none
    ∧ GameState.update c2g DeliveryOutcome.default = none
    ∧ GameState.declare c2g = none := by
  exact ⟨by rfl, by rfl, by rfl⟩

end Jiminy

namespace Jiminy

/-- C3: when a delivery of the final scheduled innings (completed innings
plus the current one equal `2 * innings`) leaves the batting side's
cumulative score strictly above the bowling side's, that same `update`
call archives the innings and completes the match, and any subsequently
submitted delivery fails because the match is complete. -/
theorem last_innings_overtake_ends_match
    (g : GameState) (st st2 : InningsStats) (g' : GameState) (ball ball2 : DeliveryOutcome)
    (hc : g.current = some st)
    (hlen : g.previous.length + 1 = 2 * g.form.innings)
    (hst : st.update ball = some st2)
    (hsc : GameState.teamScore { g with current := some st2 } st2.bowling_team
             < GameState.teamScore { g with current := some st2 } st2.batting_team)
    (hu : g.update ball = some g') :
    g'.current = none ∧ g'.update ball2 = none ∧ g'.previous = g.previous ++ [st2] := by
  unfold GameState.update at hu
  rw [hc] at hu
  simp only at hu
  rw [hst] at hu
  simp only at hu
  rw [decide_eq_true hlen, decide_eq_true hsc] at hu
  simp only [Bool.and_self, Bool.or_true, if_true] at hu
  split at hu
  · exact absurd hu (by simp)
  · unfold GameState.new_innings at hu
    simp only at hu
    have hle : 2 * g.form.innings ≤ (g.previous ++ [st2]).length := by
      simp [List.length_append, ← hlen]
    rw [if_pos hle] at hu
    simp only [Option.some.injEq] at hu
    subst hu
    refine ⟨rfl, ?_, rfl⟩
    exact update_complete_none _ ball2 rfl

end Jiminy

namespace Jiminy

/-- An `odi` match in which `tA` declared its only innings at 0 runs, so
`tB` is batting the final scheduled innings. -/
def c3g : GameState := ((GameState.new Form.odi tA tB).bind GameState.declare).getD dummyG

/-- The final innings of `c3g` in progress. -/
def c3st : InningsStats := c3g.current.getD dummyInn

/-- That innings after a single is run. -/
def c3st2 : InningsStats := (c3st.update oneRunBall).getD dummyInn

/-- The match state after the overtaking single. -/
def c3gFin : GameState := (c3g.update oneRunBall).getD dummyG

/-- C3 witness: in the final scheduled innings of `c3g`, a single takes
the batting side past the bowling side's total, the match completes on
that very delivery and a following delivery is rejected. -/
theorem last_innings_overtake_ends_match_witness :
    c3g.current = some c3st
    ∧ c3g.previous.length + 1 = 2 * c3g.form.innings
    ∧ c3st.update oneRunBall = some c3st2
    ∧ GameState.teamScore { c3g with current := some c3st2 } c3st2.bowling_team
        < GameState.teamScore { c3g with current := some c3st2 } c3st2.batting_team
    ∧ c3g.update oneRunBall = some c3gFin
    ∧ (c3gFin.current = none ∧ c3gFin.update dotBall = none
        ∧ c3gFin.previous = c3g.previous ++ [c3st2]) :=
  ⟨by rfl, by rfl, by rfl, by decide, by rfl,
   last_innings_overtake_ends_match c3g c3st c3st2 c3gFin oneRunBall dotBall
     (by rfl) (by rfl) (by rfl) (by decide) (by rfl)⟩

end Jiminy

namespace Jiminy

/-- The game state after the current innings `st` is archived by
`GameState::new_innings`: no current innings, `st` appended to history. -/
def GameState.archived (g : GameState) (st : InningsStats) : GameState :=
  { g with current := none, previous := g.previous ++ [st] }

/-- Characterisation of `GameState::new_innings` on a live match, phrased
through `GameState.archived`; it is definitionally the body of
`new_innings`. -/
theorem new_innings_eq (g : GameState) (st : InningsStats) (hc : g.current = some st) :
    g.new_innings =
      (if 2 * g.form.innings ≤ (g.previous ++ [st]).length then some (g.archived st)
       else if (g.previous ++ [st]).length + 1 = 2 * g.form.innings
              ∧ (g.archived st).teamScore st.batting_team
                  < (g.archived st).teamScore st.bowling_team
            then some (g.archived st)
       else
         match InningsStats.new
            (if (g.previous ++ [st]).length % 2 = 0
                ∧ (g.archived st).teamScore st.batting_team + 150
                    ≤ (g.archived st).teamScore st.bowling_team
             then (st.batting_team, st.bowling_team)
             else (st.bowling_team, st.batting_team)).1
            (if (g.previous ++ [st]).length % 2 = 0
                ∧ (g.archived st).teamScore st.batting_team + 150
                    ≤ (g.archived st).teamScore st.bowling_team
             then (st.batting_team, st.bowling_team)
             else (st.bowling_team, st.batting_team)).2
            g.form.balls_per_over with
         | none => none
         | some st2 => some { g.archived st with current := some st2 }) := by
  unfold GameState.new_innings GameState.archived
  rw [hc]

/-- C4: when the second-to-last scheduled innings closes (after archiving
it, one scheduled innings would remain) and the side that just batted is
strictly behind on cumulative runs, the match ends immediately with no
further innings; on a tie the final innings is started with the sides
swapped as usual. -/
theorem second_to_last_innings_early_call
    (g : GameState) (st st2 : InningsStats)
    (hc : g.current = some st)
    (hlen : g.previous.length + 2 = 2 * g.form.innings) :
    ((g.archived st).teamScore st.batting_team < (g.archived st).teamScore st.bowling_team
       → g.new_innings = some (g.archived st))
    ∧ ((g.archived st).teamScore st.batting_team = (g.archived st).teamScore st.bowling_team
       → InningsStats.new st.bowling_team st.batting_team g.form.balls_per_over = some st2
       → g.new_innings = some { g.archived st with current := some st2 }) := by
  have hno : ¬(2 * g.form.innings ≤ (g.previous ++ [st]).length) := by
    simp only [List.length_append, List.length_cons, List.length_nil]
    omega
  have hlen2 : (g.previous ++ [st]).length + 1 = 2 * g.form.innings := by
    simp only [List.length_append, List.length_cons, List.length_nil]
    omega
  rw [new_innings_eq g st hc, if_neg hno]
  constructor
  · intro hsc
    rw [if_pos ⟨hlen2, hsc⟩]
  · intro htie hnew
    have hnot : ¬((g.previous ++ [st]).length + 1 = 2 * g.form.innings
        ∧ (g.archived st).teamScore st.batting_team < (g.archived st).teamScore st.bowling_team) := by
      intro hx
      rw [htie] at hx
      exact lt_irrefl _ hx.2
    have hodd : ¬((g.previous ++ [st]).length % 2 = 0
        ∧ (g.archived st).teamScore st.batting_team + 150 ≤ (g.archived st).teamScore st.bowling_team) := by
      intro hx
      have := hx.1
      simp only [List.length_append, List.length_cons, List.length_nil] at this
      omega
    rw [if_neg hnot, if_neg hodd]
    simp only
    rw [hnew]

end Jiminy

namespace Jiminy

/-- Default-format match: `tA` scored 150 and declared, `tB` declared at
0 and was made to follow on, and is now batting the third innings, still
150 behind. -/
def c4h : GameState :=
  ((((GameState.new Form.default tA tB).bind
      (fun g => g.update penaltyBall)).bind GameState.declare).bind GameState.declare).getD dummyG

/-- The third innings of `c4h` in progress. -/
def c4hst : InningsStats := c4h.current.getD dummyInn

/-- Default-format match in which both sides scored 150 in their first
innings; `tA` is batting the third innings at a tie. -/
def c4g : GameState :=
  (((((GameState.new Form.default tA tB).bind
      (fun g => g.update penaltyBall)).bind GameState.declare).bind
        (fun g => g.update penaltyBall)).bind GameState.declare).getD dummyG

/-- The third innings of `c4g` in progress. -/
def c4st : InningsStats := c4g.current.getD dummyInn

/-- The fourth innings that starts when the third closes at a tie. -/
def c4st2 : InningsStats :=
  (InningsStats.new c4st.bowling_team c4st.batting_team c4g.form.balls_per_over).getD dummyInn

/-- C4 witness: closing the third (second-to-last) innings of `c4h` with
the batting side 150 behind ends the match at once, while closing the
third innings of `c4g` at a 150-all tie starts the final innings with the
sides swapped. -/
theorem second_to_last_innings_early_call_witness :
    (c4h.current = some c4hst
     ∧ c4h.previous.length + 2 = 2 * c4h.form.innings
     ∧ (c4h.archived c4hst).teamScore c4hst.batting_team
         < (c4h.archived c4hst).teamScore c4hst.bowling_team
     ∧ c4h.new_innings = some (c4h.archived c4hst))
    ∧ (c4g.current = some c4st
       ∧ c4g.previous.length + 2 = 2 * c4g.form.innings
       ∧ (c4g.archived c4st).teamScore c4st.batting_team
           = (c4g.archived c4st).teamScore c4st.bowling_team
       ∧ InningsStats.new c4st.bowling_team c4st.batting_team c4g.form.balls_per_over = some c4st2
       ∧ c4g.new_innings = some { c4g.archived c4st with current := some c4st2 }) :=
  ⟨⟨by rfl, by rfl, by decide,
    (second_to_last_innings_early_call c4h c4hst dummyInn (by rfl) (by rfl)).1 (by decide)⟩,
   ⟨by rfl, by rfl, by decide, by rfl,
    (second_to_last_innings_early_call c4g c4st c4st2 (by rfl) (by rfl)).2 (by decide) (by rfl)⟩⟩

end Jiminy

namespace Jiminy

theorem inn_new_teams (bt bw : Team) (bpo : Nat) (st : InningsStats)
    (h : InningsStats.new bt bw bpo = some st) :
    st.batting_team = bt ∧ st.bowling_team = bw := by
  unfold InningsStats.new at h
  cases h1 : TeamBattingInningsStats.new bt with
  | none => rw [h1] at h; exact absurd h (by simp)
  | some bat =>
      rw [h1] at h
      cases h2 : TeamBowlingInningsStats.new bw with
      | none => rw [h2] at h; exact absurd h (by simp)
      | some bowl =>
          rw [h2] at h
          simp only [Option.some.injEq] at h
          subst h
          exact ⟨rfl, rfl⟩

/-- The white-ball variant of the default two-innings format: a
non-default format with two innings per side. -/
def c1Form : Form := { Form.default with ball_type := .whiteLeather }

/-- A `c1Form` match: `tA` scored 150 penalty runs and declared, `tB`
declared at 0; the follow-on rule then made `tB` bat again. -/
def c1g : GameState :=
  ((((GameState.new c1Form tA tB).bind
      (fun g => g.update penaltyBall)).bind GameState.declare).bind GameState.declare).getD dummyG

/-- C1 counterexample: in a match whose format is not the default format
(white ball, everything else default), after an even number of completed
innings with the just-batting side trailing by exactly 150, the follow-on
still fires — the same side `tB` bats the next innings — contradicting
the claim that the follow-on fires only when the format is the default
format. -/
theorem follow_on_fires_for_non_default_format :
    c1Form ≠ Form.default
    ∧ c1g.previous.length % 2 = 0
    ∧ (c1g.previous[1]?).map (fun st => st.batting_team.id) = some tB.id
    ∧ c1g.teamScore tB + 150 = c1g.teamScore tA
    ∧ (c1g.current).map (fun st => st.batting_team.id) = some tB.id :=
  ⟨by decide, by rfl, by rfl, by rfl, by rfl⟩

/-- C1 (amended): whenever `new_innings` closes an innings of a live
match between sides with distinct ids and a next innings actually starts,
the same side bats again exactly when the completed-innings count
(including the one just closed) is even and that side trails the other's
cumulative score by at least 150 runs — the threshold is exactly 150, and
no condition on the match format is involved. -/
theorem follow_on_iff_even_and_deficit
    (g g2 : GameState) (st st2 : InningsStats)
    (hc : g.current = some st)
    (hne : st.batting_team.id ≠ st.bowling_team.id)
    (hnn : g.new_innings = some g2)
    (hcur : g2.current = some st2) :
    (st2.batting_team = st.batting_team ∧ st2.bowling_team = st.bowling_team)
      ↔ ((g.previous ++ [st]).length % 2 = 0
          ∧ (g.archived st).teamScore st.batting_team + 150
              ≤ (g.archived st).teamScore st.bowling_team) := by
  rw [new_innings_eq g st hc] at hnn
  split at hnn
  · simp only [Option.some.injEq] at hnn
    subst hnn
    exact absurd hcur (by simp [GameState.archived])
  · split at hnn
    · simp only [Option.some.injEq] at hnn
      subst hnn
      exact absurd hcur (by simp [GameState.archived])
    · by_cases hf : ((g.previous ++ [st]).length % 2 = 0
          ∧ (g.archived st).teamScore st.batting_team + 150
              ≤ (g.archived st).teamScore st.bowling_team)
      · rw [if_pos hf] at hnn
        simp only at hnn
        cases hni : InningsStats.new st.batting_team st.bowling_team g.form.balls_per_over with
        | none => rw [hni] at hnn; exact absurd hnn (by simp)
        | some stNew =>
            rw [hni] at hnn
            simp only [Option.some.injEq] at hnn
            subst hnn
            simp only [GameState.archived] at hcur
            simp only [Option.some.injEq] at hcur
            subst hcur
            obtain ⟨hb, hw⟩ := inn_new_teams _ _ _ _ hni
            rw [hb, hw]
            exact iff_of_true ⟨rfl, rfl⟩ hf
      · rw [if_neg hf] at hnn
        simp only at hnn
        cases hni : InningsStats.new st.bowling_team st.batting_team g.form.balls_per_over with
        | none => rw [hni] at hnn; exact absurd hnn (by simp)
        | some stNew =>
            rw [hni] at hnn
            simp only [Option.some.injEq] at hnn
            subst hnn
            simp only [GameState.archived] at hcur
            simp only [Option.some.injEq] at hcur
            subst hcur
            obtain ⟨hb, hw⟩ := inn_new_teams _ _ _ _ hni
            rw [hb, hw]
            refine iff_of_false ?_ hf
            intro hx
            exact hne (by rw [← hx.1])

end Jiminy

namespace Jiminy

/-- A default-format match in which `tA` scored 150 and declared; `tB` is
batting the second innings (not yet closed). -/
def c1wg : GameState :=
  (((GameState.new Form.default tA tB).bind
      (fun g => g.update penaltyBall)).bind GameState.declare).getD dummyG

/-- The second innings of `c1wg` in progress. -/
def c1wst : InningsStats := c1wg.current.getD dummyInn

/-- The state after closing the second innings of `c1wg`. -/
def c1wg2 : GameState := c1wg.new_innings.getD dummyG

/-- The third innings started by that closure. -/
def c1wst2 : InningsStats := c1wg2.current.getD dummyInn

/-- C1 witness: in the default format, closing the second innings with
the batting side exactly 150 behind on an even completed-innings count
makes the same side bat the next innings (follow-on at exactly 150). -/
theorem follow_on_iff_even_and_deficit_witness :
    c1wg.current = some c1wst
    ∧ c1wst.batting_team.id ≠ c1wst.bowling_team.id
    ∧ c1wg.new_innings = some c1wg2
    ∧ c1wg2.current = some c1wst2
    ∧ (c1wg.archived c1wst).teamScore c1wst.batting_team + 150
        = (c1wg.archived c1wst).teamScore c1wst.bowling_team
    ∧ ((c1wst2.batting_team = c1wst.batting_team ∧ c1wst2.bowling_team = c1wst.bowling_team)
        ↔ ((c1wg.previous ++ [c1wst]).length % 2 = 0
            ∧ (c1wg.archived c1wst).teamScore c1wst.batting_team + 150
                ≤ (c1wg.archived c1wst).teamScore c1wst.bowling_team)) :=
  ⟨by rfl, by decide, by rfl, by rfl, by rfl,
   follow_on_iff_even_and_deficit c1wg c1wg2 c1wst c1wst2 (by rfl) (by decide) (by rfl) (by rfl)⟩

end Jiminy

namespace Jiminy

theorem applyRuns_balls (st : BatterInningsStats) (r : Runs) :
    (applyRuns st r).balls = st.balls := by
  cases r <;> rfl

theorem applyWicket_balls_at (batters : List (PlayerId × BatterInningsStats))
    (sIdx nIdx : Nat) (w : Option Dismissal)
    (batters2 : List (PlayerId × BatterInningsStats))
    (h : applyWicket batters sIdx nIdx w = some batters2) (i : Nat) :
    (batters2[i]?).map (fun p => p.2.balls) = (batters[i]?).map (fun p => p.2.balls)
    ∧ batters2.length = batters.length := by
  cases w with
  | none =>
      simp only [applyWicket, Option.some.injEq] at h
      subst h
      exact ⟨rfl, rfl⟩
  | some w0 =>
      simp only [applyWicket] at h
      cases he : batters[if w0.isRunOutNonStriker then nIdx else sIdx]? with
      | none => rw [he] at h; exact absurd h (by simp)
      | some e =>
          rw [he] at h
          simp only [Option.some.injEq] at h
          subst h
          refine ⟨?_, by simp⟩
          by_cases hi : (if w0.isRunOutNonStriker then nIdx else sIdx) = i
          · subst hi
            rw [List.getElem?_set_self (getElem?_some_lt _ _ _ he), he]
            rfl
          · rw [List.getElem?_set_ne hi]

theorem replaceIfOut_preserves (batters : List (PlayerId × BatterInningsStats))
    (order : BattingOrder) (idx : Nat)
    (res : List (PlayerId × BatterInningsStats) × BattingOrder × Nat)
    (h : replaceIfOut batters order idx = some res) (i : Nat) (hi : i < batters.length) :
    res.1[i]? = batters[i]? ∧ batters.length ≤ res.1.length := by
  unfold replaceIfOut at h
  cases he : batters[idx]? with
  | none => rw [he] at h; exact absurd h (by simp)
  | some e =>
      rw [he] at h
      simp only at h
      by_cases ho : e.2.out.isSome
      · rw [if_pos ho] at h
        cases order with
        | nil =>
            simp only [Option.some.injEq] at h
            subst h
            exact ⟨rfl, le_refl _⟩
        | cons p rest =>
            simp only [Option.some.injEq] at h
            subst h
            exact ⟨List.getElem?_append_left hi, by simp⟩
      · rw [if_neg ho] at h
        simp only [Option.some.injEq] at h
        subst h
        exact ⟨rfl, le_refl _⟩

/-- On every accepted delivery, the balls-faced recorded in the entry the
striker occupied before the delivery grow by one exactly when the
delivery is legal. -/
theorem bat_update_striker_balls (s : TeamBattingInningsStats) (ball : DeliveryOutcome)
    (s2 : TeamBattingInningsStats) (e : PlayerId × BatterInningsStats)
    (h : s.update ball = some s2) (he : s.batters[s.strikerIdx]? = some e) :
    (s2.batters[s.strikerIdx]?).map (fun p => p.2.balls)
      = some (e.2.balls + (if ball.legal then 1 else 0)) := by
  unfold TeamBattingInningsStats.update at h
  rw [he] at h
  cases hbs : byeSwitch ball.extras with
  | none => rw [hbs] at h; exact absurd h (by simp)
  | some sw2 =>
      rw [hbs] at h
      simp only at h
      have hlt := getElem?_some_lt _ _ _ he
      have hb1 : ((s.batters.set s.strikerIdx
          (e.1, applyRuns (bumpBalls e.2 ball.legal) ball.runs))[s.strikerIdx]?).map
            (fun p => p.2.balls) = some (e.2.balls + (if ball.legal then 1 else 0)) := by
        rw [List.getElem?_set_self (by simpa using hlt)]
        simp only [Option.map_some']
        rw [applyRuns_balls]
        unfold bumpBalls
        by_cases hl : ball.legal <;> simp [hl]
      cases haw : applyWicket (s.batters.set s.strikerIdx
          (e.1, applyRuns (bumpBalls e.2 ball.legal) ball.runs))
          s.strikerIdx s.nonStrikerIdx ball.wicket with
      | none => rw [haw] at h; exact absurd h (by simp)
      | some batters2 =>
          rw [haw] at h
          simp only at h
          obtain ⟨hw2, hlen2⟩ := applyWicket_balls_at _ _ _ _ _ haw s.strikerIdx
          cases hra : replaceIfOut batters2 s.batting_order s.batter_a with
          | none => rw [hra] at h; exact absurd h (by simp)
          | some resA =>
              obtain ⟨batters3, order3, a3⟩ := resA
              rw [hra] at h
              simp only at h
              have hsi2 : s.strikerIdx < batters2.length := by
                rw [hlen2]; simpa using hlt
              obtain ⟨hp3, hle3⟩ := replaceIfOut_preserves _ _ _ _ hra s.strikerIdx hsi2
              cases hrb : replaceIfOut batters3 order3 s.batter_b with
              | none => rw [hrb] at h; exact absurd h (by simp)
              | some resB =>
                  obtain ⟨batters4, order4, b4⟩ := resB
                  rw [hrb] at h
                  simp only [Option.some.injEq] at h
                  subst h
                  have hsi3 : s.strikerIdx < batters3.length := lt_of_lt_of_le hsi2 hle3
                  obtain ⟨hp4, _⟩ := replaceIfOut_preserves _ _ _ _ hrb s.strikerIdx hsi3
                  simp only
                  rw [hp4, hp3, hw2, hb1]

end Jiminy

namespace Jiminy

/-- On every delivery, the balls-bowled recorded in the current bowler's
row grow by one exactly when the delivery is legal. -/
theorem bowl_update_balls (t : TeamBowlingInningsStats) (ball : DeliveryOutcome)
    (t2 : TeamBowlingInningsStats) (e : PlayerId × BowlerInningsStats)
    (h : t.update ball = some t2) (he : t.bowler_stats[t.current_bowler_index]? = some e) :
    (t2.bowler_stats[t.current_bowler_index]?).map (fun p => p.2.balls)
      = some (e.2.balls + (if ball.legal then 1 else 0)) := by
  unfold TeamBowlingInningsStats.update at h
  rw [he] at h
  simp only [Option.some.injEq] at h
  subst h
  simp only
  rw [List.getElem?_set_self (getElem?_some_lt _ _ _ he)]
  cases hw : ball.wicket.isSome <;> cases hl : ball.legal <;> simp [hw, hl]

theorem new_over_balls_preserved (t t2 : TeamBowlingInningsStats)
    (h : t.new_over = some t2) (i : Nat) (hi : i < t.bowler_stats.length) :
    (t2.bowler_stats[i]?).map (fun p => p.2.balls)
      = (t.bowler_stats[i]?).map (fun p => p.2.balls) := by
  have pick : ∀ (stats1 : List (PlayerId × BowlerInningsStats)),
      t.pickNext stats1 = some t2 →
      (stats1[i]?).map (fun p => p.2.balls) = (t.bowler_stats[i]?).map (fun p => p.2.balls) →
      i < stats1.length →
      (t2.bowler_stats[i]?).map (fun p => p.2.balls)
        = (t.bowler_stats[i]?).map (fun p => p.2.balls) := by
    intro stats1 hp hsame hilt
    unfold TeamBowlingInningsStats.pickNext at hp
    cases hn : t.bowlers.next with
    | none => rw [hn] at hp; exact absurd hp (by simp)
    | some p =>
        obtain ⟨nb, bw⟩ := p
        rw [hn] at hp
        simp only at hp
        cases hpos : posIdx nb stats1 with
        | some j =>
            rw [hpos] at hp
            simp only [Option.some.injEq] at hp
            subst hp
            simpa using hsame
        | none =>
            rw [hpos] at hp
            simp only [Option.some.injEq] at hp
            subst hp
            simp only
            rw [List.getElem?_append_left hilt]
            exact hsame
  unfold TeamBowlingInningsStats.new_over at h
  by_cases hm : t.current_over_maiden = true
  · rw [hm] at h
    simp only [if_true] at h
    cases he : t.bowler_stats[t.current_bowler_index]? with
    | none => rw [he] at h; exact absurd h (by simp)
    | some e =>
        rw [he] at h
        refine pick _ h ?_ (by simpa using hi)
        by_cases hij : t.current_bowler_index = i
        · subst hij
          rw [List.getElem?_set_self (getElem?_some_lt _ _ _ he), he]
          rfl
        · rw [List.getElem?_set_ne hij]
  · rw [Bool.not_eq_true] at hm
    rw [hm] at h
    simp only [Bool.false_eq_true, if_false] at h
    exact pick _ h rfl hi

/-- Count of legal deliveries in a list. -/
def countLegal (ds : List DeliveryOutcome) : Nat := ds.countP DeliveryOutcome.legal

/-- One step of `InningsStats::update`: balls-per-over never changes, the
ball-within-over counter stays below balls-per-over, the over/ball tally
advances exactly on legal deliveries, and an illegal delivery leaves the
over counters untouched. -/
theorem inn_update_counts (s : InningsStats) (ball : DeliveryOutcome) (s2 : InningsStats)
    (h : s.update ball = some s2) (hlt : s.balls < s.balls_per_over) :
    s2.balls_per_over = s.balls_per_over
    ∧ s2.balls < s2.balls_per_over
    ∧ s2.overs * s.balls_per_over + s2.balls
        = s.overs * s.balls_per_over + s.balls + (if ball.legal then 1 else 0)
    ∧ (ball.legal = false → s2.balls = s.balls ∧ s2.overs = s.overs) := by
  unfold InningsStats.update at h
  cases hb : s.batting_stats.update ball with
  | none => rw [hb] at h; exact absurd h (by simp)
  | some bat =>
      rw [hb] at h
      cases hw : s.bowling_stats.update ball with
      | none => rw [hw] at h; exact absurd h (by simp)
      | some bowl =>
          rw [hw] at h
          simp only at h
          by_cases hl : ball.legal = true
          · rw [hl] at h
            simp only [if_true] at h
            by_cases hover : s.balls_per_over ≤ s.balls + 1
            · rw [if_pos hover] at h
              cases hno : bowl.new_over with
              | none => rw [hno] at h; exact absurd h (by simp)
              | some bowl2 =>
                  rw [hno] at h
                  simp only [Option.some.injEq] at h
                  subst h
                  refine ⟨rfl, by simp only; omega, ?_, ?_⟩
                  · rw [if_pos hl]
                    simp only
                    rw [Nat.succ_mul]
                    omega
                  · intro hx
                    rw [hx] at hl
                    exact absurd hl (by simp)
            · rw [if_neg hover] at h
              simp only [Option.some.injEq] at h
              subst h
              refine ⟨rfl, by simp only; omega, ?_, ?_⟩
              · rw [if_pos hl]
                simp only
                omega
              · intro hx
                rw [hx] at hl
                exact absurd hl (by simp)
          · rw [Bool.not_eq_true] at hl
            rw [hl] at h
            simp only [Bool.false_eq_true, if_false] at h
            rw [if_neg (by omega)] at h
            simp only [Option.some.injEq] at h
            subst h
            refine ⟨rfl, by simp only; omega, ?_, ?_⟩
            · rw [if_neg (by rw [hl]; simp)]
              simp only
              omega
            · intro hx
              exact ⟨rfl, rfl⟩

/-- The over/ball tally over a whole innings prefix: completed overs times
balls-per-over plus the current over's ball count equals the number of
legal deliveries applied. -/
theorem inn_run_counts (ds : List DeliveryOutcome) (s s1 : InningsStats)
    (hlt : s.balls < s.balls_per_over) (h : s.run ds = some s1) :
    s1.balls_per_over = s.balls_per_over
    ∧ s1.balls < s1.balls_per_over
    ∧ s1.overs * s.balls_per_over + s1.balls
        = s.overs * s.balls_per_over + s.balls + countLegal ds := by
  induction ds generalizing s with
  | nil =>
      simp only [InningsStats.run, Option.some.injEq] at h
      subst h
      exact ⟨rfl, hlt, by simp [countLegal]⟩
  | cons d rest ih =>
      simp only [InningsStats.run] at h
      cases hd : s.update d with
      | none => rw [hd] at h; exact absurd h (by simp)
      | some sMid =>
          rw [hd] at h
          obtain ⟨hbpo, hltMid, hcount, _⟩ := inn_update_counts s d sMid hd hlt
          obtain ⟨hbpo1, hlt1, hcount1⟩ := ih sMid (by omega) h
          refine ⟨by rw [hbpo1, hbpo], hlt1, ?_⟩
          rw [hbpo] at hcount1
          rw [hcount1, hcount]
      -- accounting: countLegal (d :: rest) = (if legal then 1 else 0) + countLegal rest
          simp only [countLegal, List.countP_cons]
          by_cases hl : d.legal = true
          · simp only [hl, if_true]
            omega
          · simp only [Bool.not_eq_true] at hl
            simp only [hl, Bool.false_eq_true, if_false]
            omega

end Jiminy

namespace Jiminy

/-- One `InningsStats::update` step: the balls-faced of the entry the
striker occupied and the balls-bowled of the current bowler's row each
grow by one exactly when the delivery is legal (the end-of-over strike
swap and bowler rotation do not touch those counters). -/
theorem inn_update_ball_counts (s : InningsStats) (ball : DeliveryOutcome) (s2 : InningsStats)
    (h : s.update ball = some s2)
    (eb : PlayerId × BatterInningsStats)
    (heb : s.batting_stats.batters[s.batting_stats.strikerIdx]? = some eb)
    (ebl : PlayerId × BowlerInningsStats)
    (hebl : s.bowling_stats.bowler_stats[s.bowling_stats.current_bowler_index]? = some ebl) :
    (s2.batting_stats.batters[s.batting_stats.strikerIdx]?).map (fun p => p.2.balls)
        = some (eb.2.balls + (if ball.legal then 1 else 0))
    ∧ (s2.bowling_stats.bowler_stats[s.bowling_stats.current_bowler_index]?).map (fun p => p.2.balls)
        = some (ebl.2.balls + (if ball.legal then 1 else 0)) := by
  unfold InningsStats.update at h
  cases hb : s.batting_stats.update ball with
  | none => rw [hb] at h; exact absurd h (by simp)
  | some bat =>
      rw [hb] at h
      cases hw : s.bowling_stats.update ball with
      | none => rw [hw] at h; exact absurd h (by simp)
      | some bowl =>
          rw [hw] at h
          simp only at h
          have hbat := bat_update_striker_balls s.batting_stats ball bat eb hb heb
          have hbowl := bowl_update_balls s.bowling_stats ball bowl ebl hw hebl
          by_cases hover : s.balls_per_over ≤ (if ball.legal = true then s.balls + 1 else s.balls)
          · rw [if_pos hover] at h
            cases hno : bowl.new_over with
            | none => rw [hno] at h; exact absurd h (by simp)
            | some bowl2 =>
                rw [hno] at h
                simp only [Option.some.injEq] at h
                subst h
                refine ⟨hbat, ?_⟩
                have hidx : s.bowling_stats.current_bowler_index < bowl.bowler_stats.length := by
                  have := hbowl
                  cases hx : bowl.bowler_stats[s.bowling_stats.current_bowler_index]? with
                  | none => rw [hx] at this; exact absurd this (by simp)
                  | some q => exact getElem?_some_lt _ _ _ hx
                simp only
                rw [new_over_balls_preserved bowl bowl2 hno _ hidx]
                exact hbowl
          · rw [if_neg hover] at h
            simp only [Option.some.injEq] at h
            subst h
            exact ⟨hbat, hbowl⟩

/-- C6: for every prefix of deliveries accepted by an innings started at
zero overs and balls, completed-overs times balls-per-over plus the
current over's ball count equals the number of legal deliveries applied;
and on each single delivery, the over's ball count, the striker's
balls-faced and the current bowler's balls-bowled grow by one exactly
when the delivery is legal (an illegal delivery leaves all three
unchanged). -/
theorem over_ball_accounting
    (s0 : InningsStats) (ds : List DeliveryOutcome) (s1 : InningsStats)
    (s : InningsStats) (ball : DeliveryOutcome) (s2 : InningsStats)
    (eb : PlayerId × BatterInningsStats) (ebl : PlayerId × BowlerInningsStats)
    (hb0 : s0.balls = 0) (ho0 : s0.overs = 0) (hbpo : 0 < s0.balls_per_over)
    (hrun : s0.run ds = some s1)
    (hlt : s.balls < s.balls_per_over)
    (hstep : s.update ball = some s2)
    (heb : s.batting_stats.batters[s.batting_stats.strikerIdx]? = some eb)
    (hebl : s.bowling_stats.bowler_stats[s.bowling_stats.current_bowler_index]? = some ebl) :
    s1.overs * s0.balls_per_over + s1.balls = countLegal ds
    ∧ (s2.batting_stats.batters[s.batting_stats.strikerIdx]?).map (fun p => p.2.balls)
        = some (eb.2.balls + (if ball.legal then 1 else 0))
    ∧ (s2.bowling_stats.bowler_stats[s.bowling_stats.current_bowler_index]?).map (fun p => p.2.balls)
        = some (ebl.2.balls + (if ball.legal then 1 else 0))
    ∧ (ball.legal = false → s2.balls = s.balls ∧ s2.overs = s.overs) := by
  obtain ⟨hbpo1, hlt1, hcount⟩ := inn_run_counts ds s0 s1 (by omega) hrun
  obtain ⟨hbat, hbowl⟩ := inn_update_ball_counts s ball s2 hstep eb heb ebl hebl
  obtain ⟨_, _, _, hillegal⟩ := inn_update_counts s ball s2 hstep hlt
  refine ⟨?_, hbat, hbowl, hillegal⟩
  rw [hcount, hb0, ho0]
  omega

end Jiminy

namespace Jiminy

/-- A wide. -/
def wideBall : DeliveryOutcome := { dotBall with extras := [.wide] }

/-- A fresh innings of `tA` batting against `tB`, six balls per over. -/
def inn0 : InningsStats := (InningsStats.new tA tB 6).getD dummyInn

/-- Three deliveries of which two are legal. -/
def c6ds : List DeliveryOutcome := [dotBall, wideBall, oneRunBall]

/-- `inn0` after the three deliveries of `c6ds`. -/
def c6s1 : InningsStats := (inn0.run c6ds).getD dummyInn

/-- `inn0` after a single wide. -/
def c6s2 : InningsStats := (inn0.update wideBall).getD dummyInn

/-- C6 witness: after a dot, a wide and a single, the over tally counts
exactly the two legal deliveries, and a lone wide leaves the over's ball
count, the over count, the striker's balls-faced and the bowler's
balls-bowled unchanged. -/
theorem over_ball_accounting_witness :
    inn0.balls = 0 ∧ inn0.overs = 0 ∧ 0 < inn0.balls_per_over
    ∧ inn0.run c6ds = some c6s1
    ∧ inn0.balls < inn0.balls_per_over
    ∧ inn0.update wideBall = some c6s2
    ∧ inn0.batting_stats.batters[inn0.batting_stats.strikerIdx]? = some (0, BatterInningsStats.empty)
    ∧ inn0.bowling_stats.bowler_stats[inn0.bowling_stats.current_bowler_index]?
        = some (110, BowlerInningsStats.empty)
    ∧ c6s1.overs * inn0.balls_per_over + c6s1.balls = countLegal c6ds
    ∧ (wideBall.legal = false → c6s2.balls = inn0.balls ∧ c6s2.overs = inn0.overs) :=
  ⟨by rfl, by rfl, by decide, by rfl, by decide, by rfl, by rfl, by rfl,
   (over_ball_accounting inn0 c6ds c6s1 inn0 wideBall c6s2 (0, BatterInningsStats.empty)
      (110, BowlerInningsStats.empty) (by rfl) (by rfl) (by decide) (by rfl) (by decide)
      (by rfl) (by rfl) (by rfl)).1,
   (over_ball_accounting inn0 c6ds c6s1 inn0 wideBall c6s2 (0, BatterInningsStats.empty)
      (110, BowlerInningsStats.empty) (by rfl) (by rfl) (by decide) (by rfl) (by decide)
      (by rfl) (by rfl) (by rfl)).2.2.2⟩

end Jiminy

namespace Jiminy

/-- Whether a batter record carries a dismissal. -/
def outP (p : PlayerId × BatterInningsStats) : Bool := p.2.out.isSome

/-- The slot at index `i` points at a batter who is (still) not out. -/
def slotOk (batters : List (PlayerId × BatterInningsStats)) (i : Nat) : Bool :=
  match batters[i]? with
  | some p => p.2.out.isNone
  | none => false

/-- The reachability invariant of an open innings of a side with `N`
rostered batters: both crease slots are valid, distinct, point at not-out
batters, every other batter record is out (expressed through the count),
and records plus the remaining order cover the roster. -/
def batInvB (N : Nat) (s : TeamBattingInningsStats) : Bool :=
  slotOk s.batters s.batter_a && slotOk s.batters s.batter_b
  && (s.batter_a != s.batter_b)
  && (s.batters.countP outP + 2 == s.batters.length)
  && (s.batters.length + s.batting_order.length == N)

theorem slotOk_iff (batters : List (PlayerId × BatterInningsStats)) (i : Nat) :
    slotOk batters i = true ↔ ∃ p, batters[i]? = some p ∧ p.2.out = none := by
  unfold slotOk
  cases he : batters[i]? with
  | none => simp
  | some p => simp [Option.isNone_iff_eq_none]

theorem countP_set' {α : Type} (p : α → Bool) (l : List α) (i : Nat) (x e : α)
    (he : l[i]? = some e) :
    (l.set i x).countP p + (if p e then 1 else 0) = l.countP p + (if p x then 1 else 0) := by
  induction l generalizing i with
  | nil => simp at he
  | cons y rest ih =>
      cases i with
      | zero =>
          simp only [List.getElem?_cons_zero, Option.some.injEq] at he
          subst he
          simp only [List.set_cons_zero, List.countP_cons]
          omega
      | succ j =>
          simp only [List.getElem?_cons_succ] at he
          simp only [List.set_cons_succ, List.countP_cons]
          have := ih j he
          omega

theorem st2_out_eq (e : BatterInningsStats) (ball : DeliveryOutcome) :
    (applyRuns (bumpBalls e ball.legal) ball.runs).out = e.out := by
  cases ball.runs <;> by_cases hl : ball.legal = true <;> simp [applyRuns, bumpBalls, hl]

theorem applyWicket_some_eq (batters : List (PlayerId × BatterInningsStats))
    (sIdx nIdx : Nat) (w : Dismissal) (e : PlayerId × BatterInningsStats)
    (he : batters[if w.isRunOutNonStriker then nIdx else sIdx]? = some e) :
    applyWicket batters sIdx nIdx (some w)
      = some (batters.set (if w.isRunOutNonStriker then nIdx else sIdx)
          (e.1, { e.2 with out := some w })) := by
  unfold applyWicket
  simp only
  rw [he]

theorem replaceIfOut_stay (batters : List (PlayerId × BatterInningsStats))
    (order : BattingOrder) (idx : Nat) (e : PlayerId × BatterInningsStats)
    (he : batters[idx]? = some e) (ho : e.2.out = none) :
    replaceIfOut batters order idx = some (batters, order, idx) := by
  unfold replaceIfOut
  rw [he]
  simp [ho]

theorem replaceIfOut_go_nil (batters : List (PlayerId × BatterInningsStats))
    (idx : Nat) (e : PlayerId × BatterInningsStats)
    (he : batters[idx]? = some e) (ho : e.2.out.isSome = true) :
    replaceIfOut batters [] idx = some (batters, [], batters.length) := by
  unfold replaceIfOut
  rw [he]
  simp [ho]

theorem replaceIfOut_go_cons (batters : List (PlayerId × BatterInningsStats))
    (idx : Nat) (e : PlayerId × BatterInningsStats) (p : PlayerId) (rest : BattingOrder)
    (he : batters[idx]? = some e) (ho : e.2.out.isSome = true) :
    replaceIfOut batters (p :: rest) idx
      = some (batters ++ [(p, BatterInningsStats.empty)], rest, batters.length) := by
  unfold replaceIfOut
  rw [he]
  simp [ho]

end Jiminy

namespace Jiminy

/-- Preservation of the open-innings invariant by the batting update: an
accepted delivery either leaves the innings open with the invariant
intact, or closes it all out, in which case exactly `N - 1` wickets have
fallen and the batting order is exhausted. -/
theorem batInv_step (N : Nat) (s : TeamBattingInningsStats) (ball : DeliveryOutcome)
    (s' : TeamBattingInningsStats)
    (hinv : batInvB N s = true) (h : s.update ball = some s') :
    (s'.all_out = false ∧ batInvB N s' = true)
    ∨ (s'.all_out = true ∧ s'.wickets + 1 = N ∧ s'.batting_order = []) := by
  simp only [batInvB, Bool.and_eq_true, bne_iff_ne, beq_iff_eq] at hinv
  obtain ⟨⟨⟨⟨hA, hB⟩, hab⟩, hcount⟩, hlenN⟩ := hinv
  obtain ⟨pa, hpa, hpaOut⟩ := (slotOk_iff _ _).mp hA
  obtain ⟨pb, hpb, hpbOut⟩ := (slotOk_iff _ _).mp hB
  have hlA : s.batter_a < s.batters.length := getElem?_some_lt _ _ _ hpa
  have hlB : s.batter_b < s.batters.length := getElem?_some_lt _ _ _ hpb
  have hsn : (s.strikerIdx = s.batter_a ∧ s.nonStrikerIdx = s.batter_b)
           ∨ (s.strikerIdx = s.batter_b ∧ s.nonStrikerIdx = s.batter_a) := by
    unfold TeamBattingInningsStats.strikerIdx TeamBattingInningsStats.nonStrikerIdx
    by_cases hst : s.striker_a = true
    · exact Or.inl (by rw [hst]; exact ⟨rfl, rfl⟩)
    · rw [Bool.not_eq_true] at hst
      exact Or.inr (by rw [hst]; exact ⟨rfl, rfl⟩)
  obtain ⟨e, he, heOut⟩ : ∃ e, s.batters[s.strikerIdx]? = some e ∧ e.2.out = none := by
    rcases hsn with ⟨h1, _⟩ | ⟨h1, _⟩
    · exact ⟨pa, by rw [h1]; exact hpa, hpaOut⟩
    · exact ⟨pb, by rw [h1]; exact hpb, hpbOut⟩
  have hsIdxLt : s.strikerIdx < s.batters.length := getElem?_some_lt _ _ _ he
  unfold TeamBattingInningsStats.update at h
  rw [he] at h
  cases hbs : byeSwitch ball.extras with
  | none => rw [hbs] at h; exact absurd h (by simp)
  | some sw2 =>
      rw [hbs] at h
      simp only at h
      -- facts about the list after the striker entry is updated in place
      have hb1len : (s.batters.set s.strikerIdx
          (e.1, applyRuns (bumpBalls e.2 ball.legal) ball.runs)).length = s.batters.length := by
        simp
      have hb1count : (s.batters.set s.strikerIdx
          (e.1, applyRuns (bumpBalls e.2 ball.legal) ball.runs)).countP outP
            = s.batters.countP outP := by
        have hq := countP_set' outP s.batters s.strikerIdx
          (e.1, applyRuns (bumpBalls e.2 ball.legal) ball.runs) e he
        have h1 : outP e = false := by simp [outP, heOut]
        have h2 : outP (e.1, applyRuns (bumpBalls e.2 ball.legal) ball.runs) = false := by
          simp [outP, st2_out_eq, heOut]
        rw [h1, h2] at hq
        simpa using hq
      have hslot1 : ∀ (i : Nat) (p : PlayerId × BatterInningsStats),
          s.batters[i]? = some p → p.2.out = none →
          ∃ q, (s.batters.set s.strikerIdx
              (e.1, applyRuns (bumpBalls e.2 ball.legal) ball.runs))[i]? = some q
            ∧ q.2.out = none := by
        intro i p hp hpo
        by_cases hi : s.strikerIdx = i
        · subst hi
          refine ⟨(e.1, applyRuns (bumpBalls e.2 ball.legal) ball.runs), ?_, ?_⟩
          · exact List.getElem?_set_self hsIdxLt
          · rw [st2_out_eq]
            exact heOut
        · rw [List.getElem?_set_ne hi]
          exact ⟨p, hp, hpo⟩
      obtain ⟨qa, hqa, hqaOut⟩ := hslot1 s.batter_a pa hpa hpaOut
      obtain ⟨qb, hqb, hqbOut⟩ := hslot1 s.batter_b pb hpb hpbOut
      cases hw : ball.wicket with
      | none =>
          rw [hw] at h
          simp only [applyWicket] at h
          rw [replaceIfOut_stay _ _ _ qa hqa hqaOut] at h
          simp only at h
          rw [replaceIfOut_stay _ _ _ qb hqb hqbOut] at h
          simp only [Option.some.injEq] at h
          subst h
          left
          constructor
          · unfold TeamBattingInningsStats.all_out
            simp only
            rw [hb1len]
            simp only [Bool.or_eq_false_iff, decide_eq_false_iff_not, Nat.not_le]
            exact ⟨hlA, hlB⟩
          · simp only [batInvB, Bool.and_eq_true, bne_iff_ne, beq_iff_eq]
            refine ⟨⟨⟨⟨?_, ?_⟩, hab⟩, ?_⟩, ?_⟩
            · exact (slotOk_iff _ _).mpr ⟨qa, hqa, hqaOut⟩
            · exact (slotOk_iff _ _).mpr ⟨qb, hqb, hqbOut⟩
            · rw [hb1count, hb1len]
              exact hcount
            · rw [hb1len]
              exact hlenN
      | some w =>
          rw [hw] at h
          have hdab : (if w.isRunOutNonStriker then s.nonStrikerIdx else s.strikerIdx) = s.batter_a
              ∨ (if w.isRunOutNonStriker then s.nonStrikerIdx else s.strikerIdx) = s.batter_b := by
            by_cases hns : w.isRunOutNonStriker = true
            · rw [if_pos hns]
              rcases hsn with ⟨_, h2⟩ | ⟨_, h2⟩
              · exact Or.inr h2
              · exact Or.inl h2
            · rw [Bool.not_eq_true] at hns
              rw [hns]
              simp only [Bool.false_eq_true, if_false]
              rcases hsn with ⟨h1, _⟩ | ⟨h1, _⟩
              · exact Or.inl h1
              · exact Or.inr h1
          rcases hdab with hda | hdb
          · -- the batter in slot a is dismissed
            rw [applyWicket_some_eq _ _ _ w qa (by rw [hda]; exact hqa), hda] at h
            simp only at h
            have hb2len : ((s.batters.set s.strikerIdx
                (e.1, applyRuns (bumpBalls e.2 ball.legal) ball.runs)).set s.batter_a
                  (qa.1, { qa.2 with out := some w })).length = s.batters.length := by
              simp
            have hb2a : ((s.batters.set s.strikerIdx
                (e.1, applyRuns (bumpBalls e.2 ball.legal) ball.runs)).set s.batter_a
                  (qa.1, { qa.2 with out := some w }))[s.batter_a]?
                = some (qa.1, { qa.2 with out := some w }) :=
              List.getElem?_set_self (by rw [hb1len]; exact hlA)
            have hb2b : ((s.batters.set s.strikerIdx
                (e.1, applyRuns (bumpBalls e.2 ball.legal) ball.runs)).set s.batter_a
                  (qa.1, { qa.2 with out := some w }))[s.batter_b]? = some qb := by
              rw [List.getElem?_set_ne hab]
              exact hqb
            have hb2count : ((s.batters.set s.strikerIdx
                (e.1, applyRuns (bumpBalls e.2 ball.legal) ball.runs)).set s.batter_a
                  (qa.1, { qa.2 with out := some w })).countP outP
                = s.batters.countP outP + 1 := by
              have hq := countP_set' outP _ s.batter_a (qa.1, { qa.2 with out := some w }) qa hqa
              have h1 : outP qa = false := by simp [outP, hqaOut]
              have h2 : outP (qa.1, { qa.2 with out := some w }) = true := by simp [outP]
              rw [h1, h2] at hq
              rw [hb1count] at hq
              simpa using hq
            cases horder : s.batting_order with
            | nil =>
                rw [horder, replaceIfOut_go_nil _ s.batter_a _ hb2a rfl] at h
                simp only at h
                rw [replaceIfOut_stay _ [] s.batter_b qb hb2b hqbOut] at h
                simp only [Option.some.injEq] at h
                subst h
                right
                refine ⟨?_, ?_, rfl⟩
                · simp [TeamBattingInningsStats.all_out]
                · unfold TeamBattingInningsStats.wickets
                  simp only
                  rw [← List.countP_eq_length_filter]
                  have hw2 : (((s.batters.set s.strikerIdx
                      (e.1, applyRuns (bumpBalls e.2 ball.legal) ball.runs)).set s.batter_a
                        (qa.1, { qa.2 with out := some w })).countP fun p => p.2.out.isSome)
                      = s.batters.countP outP + 1 := hb2count
                  rw [hw2]
                  rw [horder] at hlenN
                  simp only [List.length_nil] at hlenN
                  omega
            | cons p rest =>
                rw [horder, replaceIfOut_go_cons _ s.batter_a _ p rest hb2a rfl] at h
                simp only at h
                rw [replaceIfOut_stay _ rest s.batter_b qb
                  (by rw [List.getElem?_append_left (by rw [hb2len]; exact hlB)]; exact hb2b)
                  hqbOut] at h
                simp only [Option.some.injEq] at h
                subst h
                left
                constructor
                · unfold TeamBattingInningsStats.all_out
                  simp only [List.length_append, List.length_cons, List.length_nil,
                    Bool.or_eq_false_iff, decide_eq_false_iff_not, Nat.not_le]
                  constructor
                  · omega
                  · rw [hb2len]
                    omega
                · simp only [batInvB, Bool.and_eq_true, bne_iff_ne, beq_iff_eq]
                  refine ⟨⟨⟨⟨?_, ?_⟩, ?_⟩, ?_⟩, ?_⟩
                  · refine (slotOk_iff _ _).mpr ⟨(p, BatterInningsStats.empty), ?_, rfl⟩
                    exact List.getElem?_concat_length _ _
                  · refine (slotOk_iff _ _).mpr ⟨qb, ?_, hqbOut⟩
                    rw [List.getElem?_append_left (by rw [hb2len]; exact hlB)]
                    exact hb2b
                  · rw [hb2len]
                    omega
                  · simp only [List.countP_append, List.length_append, List.length_cons,
                      List.length_nil]
                    rw [hb2count, hb2len]
                    have hz : List.countP outP [(p, BatterInningsStats.empty)] = 0 := rfl
                    rw [hz]
                    omega
                  · simp only [List.length_append, List.length_cons, List.length_nil]
                    rw [hb2len]
                    rw [horder] at hlenN
                    simp only [List.length_cons] at hlenN
                    omega
          · -- the batter in slot b is dismissed
            rw [applyWicket_some_eq _ _ _ w qb (by rw [hdb]; exact hqb), hdb] at h
            simp only at h
            have hb2len : ((s.batters.set s.strikerIdx
                (e.1, applyRuns (bumpBalls e.2 ball.legal) ball.runs)).set s.batter_b
                  (qb.1, { qb.2 with out := some w })).length = s.batters.length := by
              simp
            have hb2b : ((s.batters.set s.strikerIdx
                (e.1, applyRuns (bumpBalls e.2 ball.legal) ball.runs)).set s.batter_b
                  (qb.1, { qb.2 with out := some w }))[s.batter_b]?
                = some (qb.1, { qb.2 with out := some w }) :=
              List.getElem?_set_self (by rw [hb1len]; exact hlB)
            have hb2a : ((s.batters.set s.strikerIdx
                (e.1, applyRuns (bumpBalls e.2 ball.legal) ball.runs)).set s.batter_b
                  (qb.1, { qb.2 with out := some w }))[s.batter_a]? = some qa := by
              rw [List.getElem?_set_ne (Ne.symm hab)]
              exact hqa
            have hb2count : ((s.batters.set s.strikerIdx
                (e.1, applyRuns (bumpBalls e.2 ball.legal) ball.runs)).set s.batter_b
                  (qb.1, { qb.2 with out := some w })).countP outP
                = s.batters.countP outP + 1 := by
              have hq := countP_set' outP _ s.batter_b (qb.1, { qb.2 with out := some w }) qb hqb
              have h1 : outP qb = false := by simp [outP, hqbOut]
              have h2 : outP (qb.1, { qb.2 with out := some w }) = true := by simp [outP]
              rw [h1, h2] at hq
              rw [hb1count] at hq
              simpa using hq
            rw [replaceIfOut_stay _ s.batting_order s.batter_a qa hb2a hqaOut] at h
            simp only at h
            cases horder : s.batting_order with
            | nil =>
                rw [horder, replaceIfOut_go_nil _ s.batter_b _ hb2b rfl] at h
                simp only [Option.some.injEq] at h
                subst h
                right
                refine ⟨?_, ?_, rfl⟩
                · simp [TeamBattingInningsStats.all_out]
                · unfold TeamBattingInningsStats.wickets
                  simp only
                  rw [← List.countP_eq_length_filter]
                  have hw2 : (((s.batters.set s.strikerIdx
                      (e.1, applyRuns (bumpBalls e.2 ball.legal) ball.runs)).set s.batter_b
                        (qb.1, { qb.2 with out := some w })).countP fun p => p.2.out.isSome)
                      = s.batters.countP outP + 1 := hb2count
                  rw [hw2]
                  rw [horder] at hlenN
                  simp only [List.length_nil] at hlenN
                  omega
            | cons p rest =>
                rw [horder, replaceIfOut_go_cons _ s.batter_b _ p rest hb2b rfl] at h
                simp only [Option.some.injEq] at h
                subst h
                left
                constructor
                · unfold TeamBattingInningsStats.all_out
                  simp only [List.length_append, List.length_cons, List.length_nil,
                    Bool.or_eq_false_iff, decide_eq_false_iff_not, Nat.not_le]
                  constructor
                  · rw [hb2len]
                    omega
                  · omega
                · simp only [batInvB, Bool.and_eq_true, bne_iff_ne, beq_iff_eq]
                  refine ⟨⟨⟨⟨?_, ?_⟩, ?_⟩, ?_⟩, ?_⟩
                  · refine (slotOk_iff _ _).mpr ⟨qa, ?_, hqaOut⟩
                    rw [List.getElem?_append_left (by rw [hb2len]; exact hlA)]
                    exact hb2a
                  · refine (slotOk_iff _ _).mpr ⟨(p, BatterInningsStats.empty), ?_, rfl⟩
                    exact List.getElem?_concat_length _ _
                  · rw [hb2len]
                    omega
                  · simp only [List.countP_append, List.length_append, List.length_cons,
                      List.length_nil]
                    rw [hb2count, hb2len]
                    have hz : List.countP outP [(p, BatterInningsStats.empty)] = 0 := rfl
                    rw [hz]
                    omega
                  · simp only [List.length_append, List.length_cons, List.length_nil]
                    rw [hb2len]
                    rw [horder] at hlenN
                    simp only [List.length_cons] at hlenN
                    omega

end Jiminy

namespace Jiminy

/-- The invariant holds for a freshly constructed batting innings. -/
theorem batInv_new (t : Team) (b : TeamBattingInningsStats)
    (h : TeamBattingInningsStats.new t = some b) :
    batInvB t.players.length b = true := by
  unfold TeamBattingInningsStats.new at h
  cases ho : t.batting_order with
  | nil => rw [ho] at h; exact absurd h (by simp)
  | cons p1 rest1 =>
      cases hr : rest1 with
      | nil => rw [ho, hr] at h; exact absurd h (by simp)
      | cons p2 rest =>
          rw [ho, hr] at h
          simp only [Option.some.injEq] at h
          subst h
          have hlen : t.players.length = rest.length + 2 := by
            have : t.batting_order.length = t.players.length := by
              unfold Team.batting_order
              simp
            rw [ho, hr] at this
            simp at this
            omega
          simp only [batInvB, Bool.and_eq_true, bne_iff_ne, beq_iff_eq]
          refine ⟨⟨⟨⟨?_, ?_⟩, ?_⟩, ?_⟩, ?_⟩
          · exact (slotOk_iff _ _).mpr ⟨(p1, BatterInningsStats.empty), rfl, rfl⟩
          · exact (slotOk_iff _ _).mpr ⟨(p2, BatterInningsStats.empty), rfl, rfl⟩
          · omega
          · rfl
          · simp only [List.length_cons, List.length_nil]
            omega

/-- Switching the striker flag does not affect the invariant. -/
theorem batInvB_switch (N : Nat) (b : TeamBattingInningsStats) :
    batInvB N b.switch_striker = batInvB N b := rfl

/-- The invariant holds for the batting half of a freshly constructed
innings. -/
theorem batInv_inn_new (bt bw : Team) (bpo : Nat) (st : InningsStats)
    (h : InningsStats.new bt bw bpo = some st) :
    batInvB bt.players.length st.batting_stats = true := by
  unfold InningsStats.new at h
  cases h1 : TeamBattingInningsStats.new bt with
  | none => rw [h1] at h; exact absurd h (by simp)
  | some bat =>
      rw [h1] at h
      cases h2 : TeamBowlingInningsStats.new bw with
      | none => rw [h2] at h; exact absurd h (by simp)
      | some bowl =>
          rw [h2] at h
          simp only [Option.some.injEq] at h
          subst h
          exact batInv_new bt bat h1

/-- Preservation of the invariant through a whole `InningsStats::update`
step (the end-of-over strike swap does not disturb it). -/
theorem batInv_inn_step (N : Nat) (st : InningsStats) (ball : DeliveryOutcome)
    (st2 : InningsStats)
    (hinv : batInvB N st.batting_stats = true) (h : st.update ball = some st2) :
    (st2.all_out = false ∧ batInvB N st2.batting_stats = true)
    ∨ (st2.all_out = true ∧ st2.wickets + 1 = N) := by
  unfold InningsStats.update at h
  cases hb : st.batting_stats.update ball with
  | none => rw [hb] at h; exact absurd h (by simp)
  | some bat =>
      rw [hb] at h
      cases hw : st.bowling_stats.update ball with
      | none => rw [hw] at h; exact absurd h (by simp)
      | some bowl =>
          rw [hw] at h
          simp only at h
          have hstep := batInv_step N st.batting_stats ball bat hinv hb
          by_cases hover : st.balls_per_over ≤ (if ball.legal = true then st.balls + 1 else st.balls)
          · rw [if_pos hover] at h
            cases hno : bowl.new_over with
            | none => rw [hno] at h; exact absurd h (by simp)
            | some bowl2 =>
                rw [hno] at h
                simp only [Option.some.injEq] at h
                subst h
                rcases hstep with ⟨hao, hinv2⟩ | ⟨hao, hwick, _⟩
                · exact Or.inl ⟨hao, by rw [batInvB_switch]; exact hinv2⟩
                · exact Or.inr ⟨hao, hwick⟩
          · rw [if_neg hover] at h
            simp only [Option.some.injEq] at h
            subst h
            rcases hstep with ⟨hao, hinv2⟩ | ⟨hao, hwick, _⟩
            · exact Or.inl ⟨hao, hinv2⟩
            · exact Or.inr ⟨hao, hwick⟩

/-- Archiving behaviour of `new_innings`: whatever branch is taken, the
closed innings is appended to the history. -/
theorem new_innings_previous (g : GameState) (st : InningsStats) (g' : GameState)
    (hc : g.current = some st) (h : g.new_innings = some g') :
    g'.previous = g.previous ++ [st] := by
  unfold GameState.new_innings at h
  rw [hc] at h
  simp only at h
  split at h
  · simp only [Option.some.injEq] at h
    subst h
    rfl
  · split at h
    · simp only [Option.some.injEq] at h
      subst h
      rfl
    · split at h
      · exact absurd h (by simp)
      · simp only [Option.some.injEq] at h
        subst h
        rfl

end Jiminy

namespace Jiminy

/-- C5: in a reachable open innings (one satisfying the invariant, which
holds at construction and is preserved by every accepted delivery, see
`batInv_inn_new` and `batInv_inn_step`) of a side whose roster size is
`batsmen_per_side`, the wickets-fallen count is strictly below
`batsmen_per_side` (at most `batsmen_per_side - 1`); and whenever a
delivery makes the all-out condition true, that same `update` call closes
the innings, archives it, and the wickets fallen are then exactly
`batsmen_per_side - 1`. -/
theorem wickets_bound_and_all_out_close
    (g : GameState) (st : InningsStats) (ball : DeliveryOutcome)
    (g' : GameState) (st2 : InningsStats) (N : Nat)
    (hc : g.current = some st)
    (hN : g.form.batsmen_per_side = N)
    (hI : batInvB N st.batting_stats = true) :
    (st.all_out = false ∧ st.wickets < N)
    ∧ (GameState.update g ball = some g' → InningsStats.update st ball = some st2 →
        st2.all_out = true →
        st2.wickets + 1 = N ∧ g'.previous = g.previous ++ [st2]) := by
  have hI' := hI
  simp only [batInvB, Bool.and_eq_true, bne_iff_ne, beq_iff_eq] at hI'
  obtain ⟨⟨⟨⟨hA, hB⟩, hab⟩, hcount⟩, hlenN⟩ := hI'
  obtain ⟨pa, hpa, _⟩ := (slotOk_iff _ _).mp hA
  obtain ⟨pb, hpb, _⟩ := (slotOk_iff _ _).mp hB
  have hlA := getElem?_some_lt _ _ _ hpa
  have hlB := getElem?_some_lt _ _ _ hpb
  constructor
  · constructor
    · unfold InningsStats.all_out TeamBattingInningsStats.all_out
      simp only [Bool.or_eq_false_iff, decide_eq_false_iff_not, Nat.not_le]
      exact ⟨hlA, hlB⟩
    · unfold InningsStats.wickets TeamBattingInningsStats.wickets
      rw [← List.countP_eq_length_filter]
      have : st.batting_stats.batters.countP (fun p => p.2.out.isSome)
          = st.batting_stats.batters.countP outP := rfl
      rw [this]
      omega
  · intro hu hst hao
    have hstep := batInv_inn_step N st ball st2 hI hst
    rcases hstep with ⟨hao2, _⟩ | ⟨_, hwick⟩
    · rw [hao] at hao2
      exact absurd hao2 (by simp)
    · refine ⟨hwick, ?_⟩
      unfold GameState.update at hu
      rw [hc] at hu
      simp only at hu
      rw [hst] at hu
      simp only at hu
      have hcond : (st2.all_out && decide (st2.wickets + 1 ≠ g.form.batsmen_per_side)) = false := by
        rw [hao, hwick, hN]
        simp
      rw [hcond] at hu
      simp only [Bool.false_eq_true, if_false] at hu
      rw [hao] at hu
      simp only [Bool.true_or, if_true] at hu
      exact new_innings_previous { g with current := some st2 } st2 g' rfl hu

end Jiminy

namespace Jiminy

/-- A default-format match after nine consecutive dismissals: `tA` is
nine down with both crease slots still filled. -/
def c5g9 : GameState :=
  ((GameState.new Form.default tA tB).bind
    (fun g => g.runBalls (List.replicate 9 wicketBall))).getD dummyG

/-- The first innings of `c5g9` in progress. -/
def c5st : InningsStats := c5g9.current.getD dummyInn

/-- That innings after the tenth dismissal: all out. -/
def c5st2 : InningsStats := (c5st.update wicketBall).getD dummyInn

/-- The match after the tenth dismissal: the innings is archived. -/
def c5g10 : GameState := (c5g9.update wicketBall).getD dummyG

/-- C5 witness: with eleven batters a side, after nine wickets the open
innings has fewer than eleven wickets; the tenth dismissal makes the side
all out, closes and archives the innings on that same call, with exactly
ten wickets recorded. -/
theorem wickets_bound_and_all_out_close_witness :
    c5g9.current = some c5st
    ∧ c5g9.form.batsmen_per_side = 11
    ∧ batInvB 11 c5st.batting_stats = true
    ∧ (c5st.all_out = false ∧ c5st.wickets < 11)
    ∧ c5g9.update wicketBall = some c5g10
    ∧ c5st.update wicketBall = some c5st2
    ∧ c5st2.all_out = true
    ∧ (c5st2.wickets + 1 = 11 ∧ c5g10.previous = c5g9.previous ++ [c5st2]) :=
  ⟨by rfl, by rfl, by decide,
   (wickets_bound_and_all_out_close c5g9 c5st wicketBall c5g10 c5st2 11
     (by rfl) (by rfl) (by decide)).1,
   by rfl, by rfl, by rfl,
   (wickets_bound_and_all_out_close c5g9 c5st wicketBall c5g10 c5st2 11
     (by rfl) (by rfl) (by decide)).2 (by rfl) (by rfl) (by rfl)⟩

end Jiminy
